import Mathlib

/-!
Verification development for the Juguetron API proxy (src/app.py).

The Python program is shallowly embedded: JSON values (the bodies returned
by `response.json()` and the `variables` mappings) are modelled by the
inductive type `JsonVal`; Python dictionary / list / string operator
semantics (`in`, subscripting, `.get`, iteration, truthiness, `==`) are
modelled by total Lean functions returning `Except PyExc _` where the
Python operation can raise; the source functions `encode_variables`,
`build_url`, `parse_suggestions`, `parse_products`, `search_post` and the
validation phase of `generate_cfdi_invoice` are translated statement by
statement.

Python numbers: a JSON number is modelled as `JsonVal.num m e`, the exact
decimal value `m / 10^e`; `e = 0` plays the role of a Python `int`, `e > 0`
of a `float` whose shortest repr has `e` fractional digits.  Python `bool`
is a subclass of `int`, so `isinstance(x, (int, float))` accepts booleans;
the model mirrors this in `pyIsNumber`.
-/

set_option maxRecDepth 4000

/-- A JSON value as produced by `response.json()` / consumed by `json.dumps`.
`num m e` denotes the exact decimal `m / 10^e` (`e = 0` ↔ Python `int`).
`obj` keeps key order (Python dicts preserve insertion order); keys are
unique in every value produced by a JSON parse. -/
inductive JsonVal where
  | null : JsonVal
  | bool (b : Bool) : JsonVal
  | num (m : Int) (e : Nat) : JsonVal
  | str (s : String) : JsonVal
  | arr (xs : List JsonVal) : JsonVal
  | obj (kvs : List (String × JsonVal)) : JsonVal

/-- Exceptions the embedded Python fragments can raise. -/
inductive PyExc where
  | typeError
  | keyError
  | attributeError
  | valueError
  | validationError
  deriving DecidableEq, Repr

/-- Structural (decidable) equality test for `JsonVal`. -/
def jeq : JsonVal → JsonVal → Bool
  | .null, .null => true
  | .bool a, .bool b => a = b
  | .num m e, .num m' e' => m = m' && e = e'
  | .str a, .str b => a = b
  | .arr xs, .arr ys => jeqList xs ys
  | .obj xs, .obj ys => jeqObj xs ys
  | _, _ => false
where
  jeqList : List JsonVal → List JsonVal → Bool
    | [], [] => true
    | x :: xs, y :: ys => jeq x y && jeqList xs ys
    | _, _ => false
  jeqObj : List (String × JsonVal) → List (String × JsonVal) → Bool
    | [], [] => true
    | (k, v) :: xs, (k', v') :: ys => k = k' && jeq v v' && jeqObj xs ys
    | _, _ => false

theorem jeq_iff : ∀ a b : JsonVal, jeq a b = true ↔ a = b := by
  apply jeq.induct
    (motive_1 := fun xs ys => jeq.jeqList xs ys = true ↔ xs = ys)
    (motive_2 := fun a b => jeq a b = true ↔ a = b)
    (motive_3 := fun xs ys => jeq.jeqObj xs ys = true ↔ xs = ys)
  · simp [jeq]
  · intro a b; simp [jeq]
  · intro m e m' e'; simp [jeq]
  · intro a b; simp [jeq]
  · intro xs ys ih; simpa [jeq] using ih
  · intro xs ys ih; simpa [jeq] using ih
  · intro t x h1 h2 h3 h4 h5 h6
    cases t <;> cases x <;> first
      | exact (h1 rfl rfl).elim
      | exact (h2 _ _ rfl rfl).elim
      | exact (h3 _ _ _ _ rfl rfl).elim
      | exact (h4 _ _ rfl rfl).elim
      | exact (h5 _ _ rfl rfl).elim
      | exact (h6 _ _ rfl rfl).elim
      | simp [jeq]
  · simp [jeq.jeqList]
  · intro x xs y ys ih1 ih2; simp [jeq.jeqList, ih1, ih2]
  · intro t x h1 h2
    cases t <;> cases x <;> first
      | exact (h1 rfl rfl).elim
      | exact (h2 _ _ _ _ rfl rfl).elim
      | simp [jeq.jeqList]
  · simp [jeq.jeqObj]
  · intro k v xs k' v' ys ih1 ih2; simp [jeq.jeqObj, ih1, ih2]
  · intro t x h1 h2
    match t, x with
    | [], [] => exact (h1 rfl rfl).elim
    | (k, v) :: xs, (k', v') :: ys => exact (h2 _ _ _ _ _ _ rfl rfl).elim
    | [], _ :: _ => simp [jeq.jeqObj]
    | _ :: _, [] => simp [jeq.jeqObj]

instance : DecidableEq JsonVal := fun a b =>
  decidable_of_iff (jeq a b = true) (jeq_iff a b)

instance {ε : Type} {α : Type} [DecidableEq ε] [DecidableEq α] :
    DecidableEq (Except ε α) := fun a b =>
  match a, b with
  | .ok x, .ok y =>
      if h : x = y then .isTrue (by rw [h])
      else .isFalse (fun hc => h (by cases hc; rfl))
  | .error x, .error y =>
      if h : x = y then .isTrue (by rw [h])
      else .isFalse (fun hc => h (by cases hc; rfl))
  | .ok _, .error _ => .isFalse (fun hc => by cases hc)
  | .error _, .ok _ => .isFalse (fun hc => by cases hc)

namespace Py

/-- First-match association-list lookup: Python `d[k]` / `d.get(k)` on a dict
(JSON-parsed dicts have unique keys, so first match is the match). -/
def dictGet (kvs : List (String × JsonVal)) (k : String) : Option JsonVal :=
  match kvs with
  | [] => none
  | (k', v) :: rest => if k' = k then some v else dictGet rest k

/-- Python truthiness of a JSON value (`bool(x)`). -/
def pyTruthy : JsonVal → Bool
  | .null => false
  | .bool b => b
  | .num m _ => m ≠ 0
  | .str s => s ≠ ""
  | .arr xs => ¬ xs.isEmpty
  | .obj kvs => ¬ kvs.isEmpty

/-- `isinstance(x, (int, float))` — true for numbers AND booleans
(Python `bool` is a subclass of `int`). -/
def pyIsNumber : JsonVal → Bool
  | .num _ _ => true
  | .bool _ => true
  | _ => false

/-- `isinstance(x, dict)`. -/
def isDict : JsonVal → Bool
  | .obj _ => true
  | _ => false

/-- `isinstance(x, list)`. -/
def isList : JsonVal → Bool
  | .arr _ => true
  | _ => false

/-- Python `==` between JSON values.  Numbers and booleans compare by
value (`True == 1`, `1 == 1.0`); strings structurally.  Containers compare
elementwise (for `obj` this is ordered, a harmless strengthening: no code
path compared here ever equates two dicts). -/
def pyEq : JsonVal → JsonVal → Bool
  | .null, .null => true
  | .bool a, .bool b => a = b
  | .bool a, .num m e => (if a then (1 : Int) else 0) * (10 : Int) ^ e = m
  | .num m e, .bool a => (if a then (1 : Int) else 0) * (10 : Int) ^ e = m
  | .num m e, .num m' e' => m * (10 : Int) ^ e' = m' * (10 : Int) ^ e
  | .str a, .str b => a = b
  | .arr xs, .arr ys => pyEqList xs ys
  | .obj xs, .obj ys => pyEqObj xs ys
  | _, _ => false
where
  pyEqList : List JsonVal → List JsonVal → Bool
    | [], [] => true
    | x :: xs, y :: ys => pyEq x y && pyEqList xs ys
    | _, _ => false
  pyEqObj : List (String × JsonVal) → List (String × JsonVal) → Bool
    | [], [] => true
    | (k, v) :: xs, (k', v') :: ys => k = k' && pyEq v v' && pyEqObj xs ys
    | _, _ => false

/-- Substring test on character lists (Python `needle in haystack` for
strings). -/
def listSub (needle : List Char) : List Char → Bool
  | [] => needle.isEmpty
  | c :: rest => (needle.isPrefixOf (c :: rest)) || listSub needle rest

/-- Python `key in container` for a string key.  Dict → key lookup,
list → elementwise `==`, string → substring test, anything else →
`TypeError`. -/
def pyIn (key : String) : JsonVal → Except PyExc Bool
  | .obj kvs => .ok ((dictGet kvs key).isSome)
  | .arr xs => .ok (xs.any (pyEq (.str key)))
  | .str s => .ok (listSub key.data s.data)
  | _ => .error .typeError

/-- Python `container[key]` for a string key.  Only dicts accept string
subscripts; a missing key is `KeyError`, anything else `TypeError`. -/
def pySubscr (v : JsonVal) (key : String) : Except PyExc JsonVal :=
  match v with
  | .obj kvs =>
      match dictGet kvs key with
      | some x => .ok x
      | none => .error .keyError
  | _ => .error .typeError

/-- Python `container[0]`.  List → head, string → first character,
dict → `KeyError` (JSON object keys are strings, never `0`), other →
`TypeError`.  (Callers guard with a truthiness check, so the empty cases
model `IndexError` as `KeyError`-free: they return `TypeError`/`KeyError`
conservatively but are unreachable in the embedded code.) -/
def pySubscrZero (v : JsonVal) : Except PyExc JsonVal :=
  match v with
  | .arr (x :: _) => .ok x
  | .arr [] => .error .keyError
  | .str s =>
      match s.data with
      | c :: _ => .ok (.str (String.mk [c]))
      | [] => .error .keyError
  | .obj _ => .error .keyError
  | _ => .error .typeError

/-- Python `container[-1]` (negative index).  Same domain as
`pySubscrZero`, selecting the last element. -/
def pySubscrLast (v : JsonVal) : Except PyExc JsonVal :=
  match v with
  | .arr (x :: xs) => .ok ((x :: xs).getLast (by simp))
  | .arr [] => .error .keyError
  | .str s =>
      match h : s.data with
      | c :: cs => .ok (.str (String.mk [(c :: cs).getLast (by simp)]))
      | [] => .error .keyError
  | .obj _ => .error .keyError
  | _ => .error .typeError

/-- Python `x.get(key, default)` — dicts only; any other receiver raises
`AttributeError`. -/
def pyGetD (v : JsonVal) (key : String) (dflt : JsonVal) : Except PyExc JsonVal :=
  match v with
  | .obj kvs => .ok ((dictGet kvs key).getD dflt)
  | _ => .error .attributeError

/-- Python `x.get(key)` (default `None`). -/
def pyGet (v : JsonVal) (key : String) : Except PyExc JsonVal :=
  pyGetD v key .null

/-- Python `for x in v`: list → elements, dict → keys, string →
single-character strings, other → `TypeError`. -/
def pyIter : JsonVal → Except PyExc (List JsonVal)
  | .arr xs => .ok xs
  | .obj kvs => .ok (kvs.map fun kv => .str kv.1)
  | .str s => .ok (s.data.map fun c => .str (String.mk [c]))
  | _ => .error .typeError

/-- Python `a or b`. -/
def pyOr (a b : JsonVal) : JsonVal :=
  if pyTruthy a then a else b

/-- Round `a / d` half to even (the rounding of `format(x, '.2f')` on
exact decimal magnitudes). -/
def rheNat (a d : Nat) : Nat :=
  let q := a / d
  let r := a % d
  if 2 * r < d then q
  else if d < 2 * r then q + 1
  else if q % 2 = 0 then q else q + 1

end Py

open Py

/-! ## `POST /search` (src/app.py, `search_post`)

`query_term = request.termino_busqueda or request.query`; a falsy result
(`None` or the empty string) raises `HTTPException(status_code=400)`,
otherwise `execute_search(query_term)` runs.  `Except.error 400` models the
HTTP 400; `Except.ok s` models "execute_search is invoked with `s`". -/

/-- Python `a or b` on `Optional[str]` values (`None` and `""` are falsy). -/
def pyOrOptStr (a b : Option String) : Option String :=
  match a with
  | some s => if s = "" then b else some s
  | none => b

/-- The body of `search_post`: which search (if any) a request with the
given `termino_busqueda` and `query` fields triggers. -/
def search_post (termino_busqueda query : Option String) : Except Nat String :=
  match pyOrOptStr termino_busqueda query with
  | none => .error 400
  | some s => if s = "" then .error 400 else .ok s

/-! ## CFDI invoice validation (src/app.py, `generate_cfdi_invoice`)

The validation phase (lines 677–718) is embedded as `cfdiValidate`,
returning the `validation_errors` list in the order the code appends them.
The success path after validation (line 732) is NOT embeddable: the
f-string

  `f"C{random.randint(100, 999)01-{datetime.now().year % 100:D2}-M{...}"`

is malformed Python (`...999)01` is an invalid decimal literal and the
first replacement field is never closed), a `SyntaxError`; even with the
braces repaired, `:D2` is an unknown format code for `int` and would raise
`ValueError`.  So a request that passes validation can never produce the
successful response. -/

def isUpperAZ (c : Char) : Bool := 65 ≤ c.toNat && c.toNat ≤ 90

def isDigitC (c : Char) : Bool := 48 ≤ c.toNat && c.toNat ≤ 57

/-- Character class `[A-Z&Ñ]` of the SAT RFC pattern. -/
def isRfcHead (c : Char) : Bool := isUpperAZ c || c = '&' || c = 'Ñ'

/-- Character class `[A-Z0-9]`. -/
def isRfcTail (c : Char) : Bool := isUpperAZ c || isDigitC c

/-- Python `\s` (whitespace) class, ASCII part. -/
def isSpaceC (c : Char) : Bool :=
  c = ' ' || c = '\t' || c = '\n' || c = '\x0d' || c = '\x0b' || c = '\x0c'

/-- `re.match(r'^[A-Z&Ñ]{3,4}[0-9]{6}[A-Z0-9]{3}$', s)`: three or four
head letters, six digits, three alphanumerics. -/
def rfcFormatOk (s : String) : Bool :=
  let shape (k : Nat) (cs : List Char) : Bool :=
    cs.length = k + 9 &&
    (cs.take k).all isRfcHead &&
    ((cs.drop k).take 6).all isDigitC &&
    (cs.drop (k + 6)).all isRfcTail
  shape 3 s.data || shape 4 s.data

/-- `re.match(r'^V\d{8}$', s)`. -/
def ticketPhysicalOk (s : String) : Bool :=
  match s.data with
  | 'V' :: rest => rest.length = 8 && rest.all isDigitC
  | _ => false

/-- `re.match(r'^O401\d{5}$', s)`. -/
def ticketO401Ok (s : String) : Bool :=
  match s.data with
  | 'O' :: '4' :: '0' :: '1' :: rest => rest.length = 5 && rest.all isDigitC
  | _ => false

/-- `re.match(r'^O404\s*\d{5}$', s)`. -/
def ticketO404Ok (s : String) : Bool :=
  match s.data with
  | 'O' :: '4' :: '0' :: '4' :: rest =>
      let digits := rest.dropWhile isSpaceC
      (rest.takeWhile isSpaceC).all isSpaceC && digits.length = 5 && digits.all isDigitC
  | _ => false

def strStartsWith (s p : String) : Bool := p.data.isPrefixOf s.data

/-- `request.rfc.replace("-", "").replace(" ", "").upper()`. -/
def rfcClean (rfc : String) : String :=
  String.mk ((rfc.data.filter fun c => c ≠ '-' && c ≠ ' ').map Char.toUpper)

/-- The character of a decimal digit. -/
def digitChar (n : Nat) : Char := Char.ofNat (48 + n)

/-- Fuelled digit accumulator (fuel in excess of the digit count; fuelled
rather than well-founded so that the kernel can evaluate it). -/
def natDigitsAux (fuel : Nat) (n : Nat) (acc : List Char) : List Char :=
  match fuel with
  | 0 => acc
  | fuel + 1 =>
      if n < 10 then digitChar n :: acc
      else natDigitsAux fuel (n / 10) (digitChar (n % 10) :: acc)

/-- Canonical decimal digits of a natural number. -/
def natDigits (n : Nat) : List Char := natDigitsAux (n + 1) n []

/-- Digit list padded on the left with zeros to at least `w` digits. -/
def padDigits (n : Nat) (w : Nat) : List Char :=
  let d := natDigits n
  List.replicate (w - d.length) '0' ++ d

/-- Print the exact decimal `m / 10^e` with exactly `e` fractional digits
(`e = 0` → plain integer digits), exactly as Python prints the
corresponding `int` / decimally-short `float`. -/
def decDigits (m : Int) (e : Nat) : String :=
  let sign := if m < 0 then "-" else ""
  let a := m.natAbs
  if e = 0 then sign ++ String.mk (natDigits a)
  else
    let cs := padDigits a (e + 1)
    let split := cs.length - e
    sign ++ String.mk (cs.take split) ++ "." ++ String.mk (cs.drop split)

/-- `format(v, '.2f')` of the exact decimal `m / 10^e`: fixed two
fractional digits, round half to even, sign taken from the value. -/
def fmt2Dec (m : Int) (e : Nat) : String :=
  let sign := if m < 0 then "-" else ""
  let a := m.natAbs
  let n := if e ≤ 2 then a * 10 ^ (2 - e) else rheNat a (10 ^ (e - 2))
  sign ++ String.mk (natDigits (n / 100)) ++ "." ++
    (if n % 100 < 10 then "0" else "") ++ String.mk (natDigits (n % 100))

/-- `f"${v:.2f} MXN"` — raises unless `v` is a number or bool
(`TypeError` for `None`/containers, `ValueError` for strings; a bool
formats as 0/1 since Python `bool` is an `int`). -/
def formatMoney (v : JsonVal) : Except PyExc String :=
  match v with
  | .num m e => .ok ("$" ++ fmt2Dec m e ++ " MXN")
  | .bool b => .ok ("$" ++ fmt2Dec (if b then 1 else 0) 0 ++ " MXN")
  | .str _ => .error .valueError
  | _ => .error .typeError

/-- Drop trailing zero fractional digits of an exact decimal `m / 10^e`
(the shortest form Python's float repr chooses). -/
def canonDec (m : Int) (e : Nat) : Int × Nat :=
  match e with
  | 0 => (m, 0)
  | e + 1 => if m % 10 = 0 then canonDec (m / 10) e else (m, e + 1)

/-- Python `str()` of the float with exact decimal value `m / 10^e`
(shortest-repr semantics for decimally-representable doubles, which are
the only floats this development evaluates it on).  An integral float
prints with a trailing `.0`. -/
def pyFloatStr (m : Int) (e : Nat) : String :=
  match canonDec m e with
  | (m', 0) => decDigits m' 0 ++ ".0"
  | (m', e') => decDigits m' e'

/-- `'.' in s`. -/
def strContainsDot (s : String) : Bool := s.data.contains '.'

/-- Length of `s.split('.')[1]` when a dot is present. -/
def fracLen (s : String) : Nat :=
  ((s.data.dropWhile (· ≠ '.')).drop 1).takeWhile (· ≠ '.') |>.length

/-- The `validation_errors` list accumulated by `generate_cfdi_invoice`
(error messages abbreviated to stable English tags; the order and the
guard of each append follow lines 679–718 of src/app.py).  `request.total`
is the float pydantic parses from the JSON number, carried here as its
exact decimal value `totalM / 10^totalE`. -/
def cfdiValidate (rfc ticket : String) (totalM : Int) (totalE : Nat) : List String :=
  let rc := rfcClean rfc
  let e1 := if rc.data.length < 12 then ["rfc-too-short"] else []
  let e2 := if ¬ rfcFormatOk rc then ["rfc-bad-format"] else []
  let tu := String.mk (ticket.data.map Char.toUpper)
  let isOnline := strStartsWith tu "O401" || strStartsWith tu "O404"
  let isPhysical := strStartsWith tu "V"
  let e3 := if isOnline && ¬ ticketO401Ok tu && ¬ ticketO404Ok tu then
      ["online-ticket-format"] else []
  let e4 := if isPhysical && ¬ ticketPhysicalOk tu then ["physical-ticket-format"] else []
  let e5 := if ¬ isOnline && ¬ isPhysical then ["ticket-format"] else []
  let e6 := if isOnline && totalM ≠ 0 then ["online-total-nonzero"] else []
  let ts := pyFloatStr totalM totalE
  let e7 := if isPhysical && ¬ strContainsDot ts then ["physical-total-no-dot"] else []
  let e8 := if isPhysical && strContainsDot ts && 2 < fracLen ts then
      ["total-too-many-decimals"] else []
  e1 ++ e2 ++ e3 ++ e4 ++ e5 ++ e6 ++ e7 ++ e8

/-! ## Response normalizer — suggestions (src/app.py, `parse_suggestions`)

The `try` body is embedded as `suggCollect`, returning the `suggestions`
list built so far together with the exception (if any) that interrupted
it — Python list mutation survives the unwinding, and the `except` clause
swallows the exception.  The final statement
`return list(set(suggestions))[:10]` sits OUTSIDE the `try`:
`set(...)` raises `TypeError` when a collected entry is unhashable.
`pySetList`/`pyDedup` model `list(set(...))`; Python's set iteration
order is unspecified, and the model fixes first-occurrence order as its
deterministic choice. -/

/-- Hashability of a collected value (`set()` membership requirement). -/
def pyHashable : JsonVal → Bool
  | .arr _ => false
  | .obj _ => false
  | _ => true

/-- Deduplication by Python `==`, keeping first occurrences. -/
def pyDedup (xs : List JsonVal) : List JsonVal :=
  xs.foldl (fun acc x => if acc.any (fun a => pyEq a x) then acc else acc ++ [x]) []

/-- `list(set(xs))`: `TypeError` on an unhashable element, otherwise the
deduplicated list. -/
def pySetList (xs : List JsonVal) : Except PyExc (List JsonVal) :=
  if xs.all pyHashable then .ok (pyDedup xs) else .error .typeError

/-- The `for search in autocomplete["searches"]` loop: append
`search["term"]` whenever `"term" in search`. -/
def suggSearchLoop (acc : List JsonVal) : List JsonVal → List JsonVal × Option PyExc
  | [] => (acc, none)
  | search :: rest =>
      match pyIn "term" search with
      | .error e => (acc, some e)
      | .ok false => suggSearchLoop acc rest
      | .ok true =>
          match pySubscr search "term" with
          | .error e => (acc, some e)
          | .ok v => suggSearchLoop (acc ++ [v]) rest

/-- The `for product in autocomplete["productSuggestions"]` loop: for dict
entries carrying a `name` or `productName` key, append
`product.get("name") or product.get("productName", "")` when truthy.
No statement in this loop can raise. -/
def suggProdLoop (acc : List JsonVal) : List JsonVal → List JsonVal
  | [] => acc
  | product :: rest =>
      match product with
      | .obj kvs =>
          if (dictGet kvs "name").isSome || (dictGet kvs "productName").isSome then
            let name := pyOr ((dictGet kvs "name").getD .null)
              ((dictGet kvs "productName").getD (.str ""))
            if pyTruthy name then suggProdLoop (acc ++ [name]) rest
            else suggProdLoop acc rest
          else suggProdLoop acc rest
      | _ => suggProdLoop acc rest

/-- The whole `try` body of `parse_suggestions`: collected suggestions
plus the interrupting exception, if any. -/
def suggCollect (data : JsonVal) : List JsonVal × Option PyExc :=
  match pyIn "data" data with
  | .error e => ([], some e)
  | .ok false => ([], none)
  | .ok true =>
      match pySubscr data "data" with
      | .error e => ([], some e)
      | .ok dd =>
          match pyGetD dd "autocompleteSearchSuggestions" (.obj []) with
          | .error e => ([], some e)
          | .ok autocomplete =>
              let step1 : List JsonVal × Option PyExc :=
                match pyIn "searches" autocomplete with
                | .error e => ([], some e)
                | .ok false => ([], none)
                | .ok true =>
                    match pySubscr autocomplete "searches" with
                    | .error e => ([], some e)
                    | .ok sv =>
                        match pyIter sv with
                        | .error e => ([], some e)
                        | .ok items => suggSearchLoop [] items
              match step1 with
              | (acc, some e) => (acc, some e)
              | (acc, none) =>
                  match pyIn "productSuggestions" autocomplete with
                  | .error e => (acc, some e)
                  | .ok false => (acc, none)
                  | .ok true =>
                      match pySubscr autocomplete "productSuggestions" with
                      | .error e => (acc, some e)
                      | .ok pv =>
                          match pyIter pv with
                          | .error e => (acc, some e)
                          | .ok items => (suggProdLoop acc items, none)

/-- `parse_suggestions`: swallow any exception from the `try` body, then
`list(set(suggestions))[:10]` — which itself can raise. -/
def parse_suggestions (data : JsonVal) : Except PyExc (List JsonVal) :=
  (pySetList (suggCollect data).1).map (List.take 10)

/-! ## Response normalizer — products (src/app.py, `parse_products`)

Exceptions inside the `for` loop keep the products appended so far
(`Except.error` carries the partial list); the function-level `except`
returns that partial list. The emitted record `ProductM` mirrors the
pydantic `Product` model: `id`/`name` are strings (the code applies
`str()` to the id; pydantic requires `name` and the optional fields to be
strings, raising a validation error otherwise). -/

/-- The pydantic `Product` model of src/app.py. -/
structure ProductM where
  id : String
  name : String
  description : Option String
  price : Option String
  image_url : Option String
  product_url : Option String
  brand : Option String
  category : Option String
  deriving DecidableEq, Repr

/-- Quote a string as Python `repr` does (single quotes preferred). -/
def pyStrQuote (s : String) : String :=
  let q : Char := if s.data.contains '\'' && ¬ s.data.contains '"' then '"' else '\''
  let esc (c : Char) : List Char :=
    if c = '\\' then ['\\', '\\']
    else if c = q then ['\\', q]
    else if c = '\n' then ['\\', 'n']
    else if c = '\x0d' then ['\\', 'r']
    else if c = '\t' then ['\\', 't']
    else [c]
  String.mk (q :: (s.data.map esc).flatten ++ [q])

/-- Python `repr()` of a JSON value. -/
def pyRepr : JsonVal → String
  | .null => "None"
  | .bool b => if b then "True" else "False"
  | .num m e => decDigits m e
  | .str s => pyStrQuote s
  | .arr xs => "[" ++ String.intercalate ", " (pyReprList xs) ++ "]"
  | .obj kvs =>
      String.mk [Char.ofNat 123] ++ String.intercalate ", " (pyReprObj kvs) ++
        String.mk [Char.ofNat 125]
where
  pyReprList : List JsonVal → List String
    | [] => []
    | x :: xs => pyRepr x :: pyReprList xs
  pyReprObj : List (String × JsonVal) → List String
    | [] => []
    | (k, v) :: kvs => (pyStrQuote k ++ ": " ++ pyRepr v) :: pyReprObj kvs

/-- Python `str()` of a JSON value. -/
def pyStr : JsonVal → String
  | .str s => s
  | v => pyRepr v

/-- pydantic validation of an `Optional[str]` field. -/
def toOptStr : JsonVal → Except PyExc (Option String)
  | .null => .ok none
  | .str s => .ok (some s)
  | _ => .error .validationError

/-- pydantic validation of a required `str` field. -/
def toStrField : JsonVal → Except PyExc String
  | .str s => .ok s
  | _ => .error .validationError

/-- The price block of `parse_products` (lines 398–415): `priceRange.sellingPrice`
— `lowPrice or highPrice-default-0` for a dict, the value itself for a
number (booleans count) — else a numeric `offer.offerPrice`; the chosen
value is formatted `f"${v:.2f} MXN"`, raising on non-numeric values. -/
def sellingStep (kvs : List (String × JsonVal)) : Except PyExc (Option String) :=
  match dictGet kvs "priceRange" with
  | some (.obj prkvs) =>
      match dictGet prkvs "sellingPrice" with
      | some selling =>
          match selling with
          | .obj spkvs =>
              let priceVal := pyOr ((dictGet spkvs "lowPrice").getD .null)
                ((dictGet spkvs "highPrice").getD (.num 0 0))
              (formatMoney priceVal).map some
          | .num m e => (formatMoney (.num m e)).map some
          | .bool b => (formatMoney (.bool b)).map some
          | _ => .ok none
      | none => .ok none
  | _ => .ok none

def offerStep (kvs : List (String × JsonVal)) : Except PyExc (Option String) :=
  match dictGet kvs "offer" with
  | some (.obj okvs) =>
      match dictGet okvs "offerPrice" with
      | some op => if pyIsNumber op then (formatMoney op).map some else .ok none
      | none => .ok none
  | _ => .ok none

def computePrice (kvs : List (String × JsonVal)) : Except PyExc (Option String) :=
  match sellingStep kvs with
  | .error e => .error e
  | .ok priceOpt => if priceOpt.isNone then offerStep kvs else .ok priceOpt

/-- The `for prop in raw_product["properties"]` scan shared by the
image/link/brand fallbacks: find the first property whose `name` equals
`target` and whose `values` is truthy, yielding `values[0]`; `prop.get`
raises `AttributeError` on non-dict entries. -/
def propLoop (target : String) : List JsonVal → Except PyExc (Option JsonVal)
  | [] => .ok none
  | prop :: rest =>
      match pyGet prop "name" with
      | .error e => .error e
      | .ok nm =>
          if pyEq nm (.str target) then
            match pyGetD prop "values" (.arr []) with
            | .error e => .error e
            | .ok values =>
                if pyTruthy values then
                  match pySubscrZero values with
                  | .error e => .error e
                  | .ok v => .ok (some v)
                else propLoop target rest
          else propLoop target rest

/-- `if "properties" in raw_product: for prop in raw_product["properties"]: ...` -/
def propScan (kvs : List (String × JsonVal)) (target : String) :
    Except PyExc (Option JsonVal) :=
  match dictGet kvs "properties" with
  | none => .ok none
  | some pv =>
      match pyIter pv with
      | .error e => .error e
      | .ok items => propLoop target items

/-- The image block: `items[0].images[0].imageUrl` when that chain of
shapes holds, else the `image_link` property fallback. -/
def computeImage (kvs : List (String × JsonVal)) : Except PyExc JsonVal :=
  let img1 : JsonVal :=
    match dictGet kvs "items" with
    | some (.arr (firstItem :: _)) =>
        match firstItem with
        | .obj fkvs =>
            match dictGet fkvs "images" with
            | some (.arr (firstImage :: _)) =>
                match firstImage with
                | .obj ikvs => (dictGet ikvs "imageUrl").getD .null
                | _ => .null
            | _ => .null
        | _ => .null
    | _ => .null
  if pyTruthy img1 then .ok img1
  else
    match propScan kvs "image_link" with
    | .error e => .error e
    | .ok (some v) => .ok v
    | .ok none => .ok img1

/-- The product-URL block: a clean URL from `linkText`, else the raw
`link` field, else the `link` property fallback. -/
def computeUrl (kvs : List (String × JsonVal)) : Except PyExc JsonVal :=
  let lt := (dictGet kvs "linkText").getD .null
  if pyTruthy lt then .ok (.str ("https://www.juguetron.mx/" ++ pyStr lt ++ "/p"))
  else
    match dictGet kvs "link" with
    | some v => .ok v
    | none =>
        match propScan kvs "link" with
        | .error e => .error e
        | .ok (some v) => .ok v
        | .ok none => .ok .null

/-- The brand block: direct `brand` field, else the `brand` property. -/
def computeBrand (kvs : List (String × JsonVal)) : Except PyExc JsonVal :=
  let b := (dictGet kvs "brand").getD .null
  if pyTruthy b then .ok b
  else
    match propScan kvs "brand" with
    | .error e => .error e
    | .ok (some v) => .ok v
    | .ok none => .ok b

/-- `s.strip("/")`. -/
def pyStripSlash (s : String) : String :=
  String.mk (((s.data.dropWhile (· = '/')).reverse.dropWhile (· = '/')).reverse)

/-- `s.split("/")[-1]`. -/
def lastSlashSegment (s : String) : String :=
  String.mk ((s.data.reverse.takeWhile (· ≠ '/')).reverse)

/-- The category block: last entry of a `categories` list, stripped of
slashes, final path segment; `.strip` raises on a truthy non-string. -/
def computeCategory (kvs : List (String × JsonVal)) : Except PyExc (Option String) :=
  match dictGet kvs "categories" with
  | some (.arr cats) =>
      match cats.getLast? with
      | none => .ok none
      | some lastCat =>
          if pyTruthy lastCat then
            match lastCat with
            | .str s => .ok (some (lastSlashSegment (pyStripSlash s)))
            | _ => .error .attributeError
          else .ok none
  | _ => .ok none

/-- `raw_product.get("productName") or raw_product.get("name", "")`. -/
def nameValue (kvs : List (String × JsonVal)) : JsonVal :=
  pyOr ((dictGet kvs "productName").getD .null) ((dictGet kvs "name").getD (.str ""))

/-- One iteration of the product loop: skip non-dicts, extract every
field, and emit a `ProductM` when the resolved name is truthy (pydantic
validates the field types). -/
def mkProduct (raw : JsonVal) : Except PyExc (Option ProductM) :=
  match raw with
  | .obj kvs =>
      let pid := pyOr (pyOr ((dictGet kvs "productId").getD .null)
        ((dictGet kvs "cacheId").getD .null)) ((dictGet kvs "id").getD (.str ""))
      let nameV := nameValue kvs
      let descV := pyOr ((dictGet kvs "description").getD .null)
        ((dictGet kvs "shortDescription").getD .null)
      match computePrice kvs with
      | .error e => .error e
      | .ok price =>
          match computeImage kvs with
          | .error e => .error e
          | .ok imgV =>
              match computeUrl kvs with
              | .error e => .error e
              | .ok urlV =>
                  match computeBrand kvs with
                  | .error e => .error e
                  | .ok brandV =>
                      match computeCategory kvs with
                      | .error e => .error e
                      | .ok cat =>
                          if pyTruthy nameV then
                            match toStrField nameV with
                            | .error e => .error e
                            | .ok nm =>
                                match toOptStr descV with
                                | .error e => .error e
                                | .ok ds =>
                                    match toOptStr imgV with
                                    | .error e => .error e
                                    | .ok iu =>
                                        match toOptStr urlV with
                                        | .error e => .error e
                                        | .ok pu =>
                                            match toOptStr brandV with
                                            | .error e => .error e
                                            | .ok br =>
                                                .ok (some ⟨pyStr pid, nm, ds, price,
                                                  iu, pu, br, cat⟩)
                          else .ok none
  | _ => .ok none

/-- The product-list selection of `parse_products` (lines 374–387):
`productSuggestions.products` / `productSuggestions`-as-list, ELIF
`searchResult.products` / `searchResult`-as-list, default `[]`. -/
def selectRaw (result : JsonVal) : Except PyExc JsonVal :=
  match pyIn "productSuggestions" result with
  | .error e => .error e
  | .ok true =>
      match pySubscr result "productSuggestions" with
      | .error e => .error e
      | .ok so =>
          match so with
          | .obj skvs =>
              match dictGet skvs "products" with
              | some p => .ok p
              | none => .ok (.arr [])
          | .arr xs => .ok (.arr xs)
          | _ => .ok (.arr [])
  | .ok false =>
      match pyIn "searchResult" result with
      | .error e => .error e
      | .ok true =>
          match pySubscr result "searchResult" with
          | .error e => .error e
          | .ok sr =>
              match sr with
              | .obj skvs =>
                  match dictGet skvs "products" with
                  | some p => .ok p
                  | none => .ok (.arr [])
              | .arr xs => .ok (.arr xs)
              | _ => .ok (.arr [])
      | .ok false => .ok (.arr [])

/-- The product loop; an exception keeps the products appended so far. -/
def parseProductsLoop (acc : List ProductM) :
    List JsonVal → Except (PyExc × List ProductM) (List ProductM)
  | [] => .ok acc
  | raw :: rest =>
      match mkProduct raw with
      | .error e => .error (e, acc)
      | .ok none => parseProductsLoop acc rest
      | .ok (some p) => parseProductsLoop (acc ++ [p]) rest

/-- The whole `try` body of `parse_products` (the `query` parameter is
unused in the source as well). -/
def parseProductsTry (data : JsonVal) (_query : String) :
    Except (PyExc × List ProductM) (List ProductM) :=
  match pyIn "data" data with
  | .error e => .error (e, [])
  | .ok false => .ok []
  | .ok true =>
      match pySubscr data "data" with
      | .error e => .error (e, [])
      | .ok result =>
          match selectRaw result with
          | .error e => .error (e, [])
          | .ok rawProducts =>
              match pyIter rawProducts with
              | .error e => .error (e, [])
              | .ok items => parseProductsLoop [] items

/-- `parse_products`: the function-level `except` turns any exception into
the partial list collected so far. -/
def parse_products (data : JsonVal) (query : String) : List ProductM :=
  match parseProductsTry data query with
  | .ok ps => ps
  | .error (_, ps) => ps

/-! ## Query builder (src/app.py, `encode_variables` / `build_url`)

`json.dumps` (default options: `ensure_ascii=True`, separators
`", "` / `": "`) is modelled by `dumpsVal`; `base64.b64encode` by
`b64enc` over byte lists; `str.encode('utf-8')` by `pyEncodeUtf8`;
`urllib.parse.urlencode` (whose default quoting is `quote_plus` with
`safe=''`) by `urlencodeParams`.

The decoding direction (`json.loads`, `base64.b64decode`,
`bytes.decode('utf-8')`, `urllib.parse.unquote_plus`, query-string
splitting) is needed to state the round-trip property of C4; those
functions are modelled on the fragment that actually reaches them here:
the JSON parser accepts exactly the exponent-free JSON that `json.dumps`
emits (plus whitespace and both hex cases), and `unquotePlus` decodes
single-byte percent-escapes — every string decoded in this development is
pure ASCII because `ensure_ascii=True` output is. -/

def lbrace : Char := Char.ofNat 123
def rbrace : Char := Char.ofNat 125

/-- Lowercase hex digit. -/
def hexCharL (n : Nat) : Char :=
  if n < 10 then Char.ofNat (48 + n) else Char.ofNat (87 + n)

/-- Uppercase hex digit. -/
def hexCharU (n : Nat) : Char :=
  if n < 10 then Char.ofNat (48 + n) else Char.ofNat (55 + n)

/-- Four lowercase hex digits of `n < 65536` (`'\u%04x'`). -/
def hex4 (n : Nat) : List Char :=
  [hexCharL (n / 4096 % 16), hexCharL (n / 256 % 16), hexCharL (n / 16 % 16),
    hexCharL (n % 16)]

/-- `json.dumps` escaping of one character with `ensure_ascii=True`:
short escapes for `\ " \b \t \n \f \r`, printable ASCII literal,
`\uXXXX` otherwise (a surrogate pair above the BMP). -/
def escJsonChar (c : Char) : List Char :=
  let n := c.toNat
  if c = '\\' then ['\\', '\\']
  else if c = '"' then ['\\', '"']
  else if c = '\x08' then ['\\', 'b']
  else if c = '\t' then ['\\', 't']
  else if c = '\n' then ['\\', 'n']
  else if c = '\x0c' then ['\\', 'f']
  else if c = '\x0d' then ['\\', 'r']
  else if 32 ≤ n ∧ n ≤ 126 then [c]
  else if n < 65536 then '\\' :: 'u' :: hex4 n
  else
    ('\\' :: 'u' :: hex4 (55296 + (n - 65536) / 1024)) ++
      ('\\' :: 'u' :: hex4 (56320 + (n - 65536) % 1024))

/-- A JSON string literal as `json.dumps` prints it. -/
def jstring (s : String) : List Char :=
  '"' :: (s.data.map escJsonChar).flatten ++ ['"']

/-- `json.dumps(v)` with the default separators, as a character list. -/
def dumpsVal : JsonVal → List Char
  | .null => 'n' :: 'u' :: 'l' :: 'l' :: []
  | .bool true => 't' :: 'r' :: 'u' :: 'e' :: []
  | .bool false => 'f' :: 'a' :: 'l' :: 's' :: 'e' :: []
  | .num m e => (decDigits m e).data
  | .str s => jstring s
  | .arr [] => '[' :: ']' :: []
  | .arr (x :: xs) => '[' :: dumpsVal x ++ dumpsElems xs
  | .obj [] => lbrace :: rbrace :: []
  | .obj ((k, v) :: kvs) =>
      lbrace :: jstring k ++ ':' :: ' ' :: dumpsVal v ++ dumpsMembers kvs
where
  dumpsElems : List JsonVal → List Char
    | [] => [']']
    | x :: xs => ',' :: ' ' :: dumpsVal x ++ dumpsElems xs
  dumpsMembers : List (String × JsonVal) → List Char
    | [] => [rbrace]
    | (k, v) :: kvs => ',' :: ' ' :: jstring k ++ ':' :: ' ' :: dumpsVal v ++ dumpsMembers kvs

/-- `json.dumps(v)` as a string. -/
def dumps (v : JsonVal) : String := String.mk (dumpsVal v)

/-- Fuel bound for the JSON parser: an upper bound on the nesting work of
a value / of a `", elem"*` tail. -/
def jsize : JsonVal → Nat
  | .null => 1
  | .bool _ => 1
  | .num _ _ => 1
  | .str _ => 1
  | .arr [] => 1
  | .arr (x :: xs) => 1 + jsize x + jsizeElems xs
  | .obj [] => 1
  | .obj ((_, v) :: kvs) => 1 + jsize v + jsizeMembers kvs
where
  jsizeElems : List JsonVal → Nat
    | [] => 1
    | x :: xs => 1 + jsize x + jsizeElems xs
  jsizeMembers : List (String × JsonVal) → Nat
    | [] => 1
    | (_, v) :: kvs => 1 + jsize v + jsizeMembers kvs

/-- JSON / query-string whitespace. -/
def isWsC (c : Char) : Bool := c = ' ' || c = '\t' || c = '\n' || c = '\x0d'

def skipWs (cs : List Char) : List Char := cs.dropWhile isWsC

/-- Value of a hex digit (both cases). -/
def hexVal (c : Char) : Option Nat :=
  let n := c.toNat
  if 48 ≤ n ∧ n ≤ 57 then some (n - 48)
  else if 97 ≤ n ∧ n ≤ 102 then some (n - 87)
  else if 65 ≤ n ∧ n ≤ 70 then some (n - 55)
  else none

/-- One short JSON escape `\e` (second character `e` of the sequence). -/
def jsonShortEsc (e : Char) : Option Char :=
  if e = '"' then some '"'
  else if e = '\\' then some '\\'
  else if e = '/' then some '/'
  else if e = 'b' then some '\x08'
  else if e = 't' then some '\t'
  else if e = 'n' then some '\n'
  else if e = 'f' then some '\x0c'
  else if e = 'r' then some '\x0d'
  else none

/-- Read four hex digits. -/
def readHex4 : List Char → Option (Nat × List Char)
  | h1 :: h2 :: h3 :: h4 :: rest =>
      match hexVal h1, hexVal h2, hexVal h3, hexVal h4 with
      | some a, some b, some c, some d => some (a * 4096 + b * 256 + c * 16 + d, rest)
      | _, _, _, _ => none
  | _ => none

/-- Decode one `\uXXXX` escape (after the `u`), combining surrogate
pairs; lone surrogates are rejected (Lean strings cannot hold them). -/
def parseUEsc (rest2 : List Char) : Option (Char × List Char) :=
  match readHex4 rest2 with
  | none => none
  | some (n, rest3) =>
      if n < 55296 then some (Char.ofNat n, rest3)
      else if n < 56320 then
        match rest3 with
        | e2 :: u2 :: rest4 =>
            if e2 = '\\' ∧ u2 = 'u' then
              match readHex4 rest4 with
              | some (lo, rest5) =>
                  if 56320 ≤ lo ∧ lo < 57344 then
                    some (Char.ofNat (65536 + (n - 55296) * 1024 + (lo - 56320)), rest5)
                  else none
              | none => none
            else none
        | _ => none
      else if n < 57344 then none
      else some (Char.ofNat n, rest3)

/-- Parse a JSON string body (after the opening quote), accumulating
parsed characters; handles the escapes `json.dumps` emits plus `\/`.
Fuelled (one unit per parsed character) so that the kernel can evaluate
it; callers pass one more than the input length. -/
def parseStrBody (fuel : Nat) (acc : List Char) (cs : List Char) :
    Option (String × List Char) :=
  match fuel with
  | 0 => none
  | fuel + 1 =>
      match cs with
      | [] => none
      | c :: rest =>
          if c = '"' then some (String.mk acc, rest)
          else if c = '\\' then
            match rest with
            | [] => none
            | e :: rest2 =>
                if e = 'u' then
                  match parseUEsc rest2 with
                  | some p => parseStrBody fuel (acc ++ [p.1]) p.2
                  | none => none
                else
                  match jsonShortEsc e with
                  | some c2 => parseStrBody fuel (acc ++ [c2]) rest2
                  | none => none
          else if c.toNat < 32 then none
          else parseStrBody fuel (acc ++ [c]) rest

/-- Numeric value of a digit list. -/
def natFromDigits (ds : List Char) : Nat :=
  ds.foldl (fun a c => a * 10 + (c.toNat - 48)) 0

/-- Parse a JSON number (the exponent-free grammar `json.dumps` emits for
`int`s and decimally-short `float`s): optional sign, integer digits
without leading zeros, optional fraction. -/
def parseNum (cs : List Char) : Option (JsonVal × List Char) :=
  match cs with
  | [] => none
  | c0 :: t0 =>
      let neg := c0 = '-'
      let cs1 := if c0 = '-' then t0 else c0 :: t0
      let intDigits := cs1.takeWhile isDigitC
      let r1 := cs1.dropWhile isDigitC
      if intDigits.isEmpty then none
      else if intDigits.headD '0' = '0' ∧ intDigits.length ≠ 1 then none
      else
        match r1 with
        | [] =>
            some (.num (if neg then -(natFromDigits intDigits : Int)
              else (natFromDigits intDigits : Int)) 0, [])
        | c1 :: t1 =>
            if c1 = '.' then
              let fracDigits := t1.takeWhile isDigitC
              let r3 := t1.dropWhile isDigitC
              if fracDigits.isEmpty then none
              else
                some (.num (if neg then -(natFromDigits (intDigits ++ fracDigits) : Int)
                  else (natFromDigits (intDigits ++ fracDigits) : Int))
                  fracDigits.length, r3)
            else
              some (.num (if neg then -(natFromDigits intDigits : Int)
                else (natFromDigits intDigits : Int)) 0, c1 :: t1)

/-- Recognise a fixed keyword tail (e.g. `"ull"` after `n`). -/
def expectChars (lit : List Char) (cs : List Char) : Option (List Char) :=
  match lit, cs with
  | [], rest => some rest
  | l :: ls, c :: rest => if c = l then expectChars ls rest else none
  | _ :: _, [] => none

mutual

/-- Recursive-descent JSON value parser (fuelled). -/
def parseValue (fuel : Nat) (cs : List Char) : Option (JsonVal × List Char) :=
  match fuel with
  | 0 => none
  | fuel + 1 =>
      match skipWs cs with
      | [] => none
      | c :: rest =>
          if c = 'n' then (expectChars ['u', 'l', 'l'] rest).map fun r => (.null, r)
          else if c = 't' then (expectChars ['r', 'u', 'e'] rest).map fun r => (.bool true, r)
          else if c = 'f' then
            (expectChars ['a', 'l', 's', 'e'] rest).map fun r => (.bool false, r)
          else if c = '"' then
            (parseStrBody (rest.length + 1) [] rest).map fun p => (.str p.1, p.2)
          else if c = '[' then
            match skipWs rest with
            | [] => none
            | c2 :: r2 =>
                if c2 = ']' then some (.arr [], r2)
                else
                  match parseValue fuel rest with
                  | some (v, r3) => parseElems fuel r3 [v]
                  | none => none
          else if c = lbrace then
            match skipWs rest with
            | [] => none
            | c2 :: r2 =>
                if c2 = rbrace then some (.obj [], r2)
                else
                  match parseMember fuel rest with
                  | some (k, v, r3) => parseMembers fuel r3 [(k, v)]
                  | none => none
          else parseNum (c :: rest)

/-- After one array element: `, value` repeated, then `]`. -/
def parseElems (fuel : Nat) (cs : List Char) (acc : List JsonVal) :
    Option (JsonVal × List Char) :=
  match fuel with
  | 0 => none
  | fuel + 1 =>
      match skipWs cs with
      | [] => none
      | c :: rest =>
          if c = ']' then some (.arr acc, rest)
          else if c = ',' then
            match parseValue fuel rest with
            | some (v, r2) => parseElems fuel r2 (acc ++ [v])
            | none => none
          else none

/-- One `"key": value` member. -/
def parseMember (fuel : Nat) (cs : List Char) :
    Option (String × JsonVal × List Char) :=
  match fuel with
  | 0 => none
  | fuel + 1 =>
      match skipWs cs with
      | [] => none
      | c :: rest =>
          if c = '"' then
            match parseStrBody (rest.length + 1) [] rest with
            | some (k, r2) =>
                match skipWs r2 with
                | [] => none
                | c2 :: r3 =>
                    if c2 = ':' then
                      match parseValue fuel r3 with
                      | some (v, r4) => some (k, v, r4)
                      | none => none
                    else none
            | none => none
          else none

/-- After one object member: `, member` repeated, then the closing brace. -/
def parseMembers (fuel : Nat) (cs : List Char) (acc : List (String × JsonVal)) :
    Option (JsonVal × List Char) :=
  match fuel with
  | 0 => none
  | fuel + 1 =>
      match skipWs cs with
      | [] => none
      | c :: rest =>
          if c = rbrace then some (.obj acc, rest)
          else if c = ',' then
            match parseMember fuel rest with
            | some (k, v, r2) => parseMembers fuel r2 (acc ++ [(k, v)])
            | none => none
          else none

end

/-- `json.loads` on the characters of a JSON document. -/
def parseJsonChars (cs : List Char) : Option JsonVal :=
  match parseValue (cs.length + 1) cs with
  | some (v, rest) => if (skipWs rest).isEmpty then some v else none
  | none => none

/-- `json.loads`. -/
def parseJson (s : String) : Option JsonVal := parseJsonChars s.data

/-- A byte of the standard base64 alphabet. -/
def b64chr (n : Nat) : Char :=
  if n < 26 then Char.ofNat (65 + n)
  else if n < 52 then Char.ofNat (97 + (n - 26))
  else if n < 62 then Char.ofNat (48 + (n - 52))
  else if n = 62 then '+' else '/'

/-- `base64.b64encode` over a byte list (standard alphabet, `=`-padded,
no line wrapping). -/
def b64enc : List Nat → List Char
  | [] => []
  | [b1] => [b64chr (b1 / 4), b64chr (b1 % 4 * 16), '=', '=']
  | [b1, b2] => [b64chr (b1 / 4), b64chr (b1 % 4 * 16 + b2 / 16), b64chr (b2 % 16 * 4), '=']
  | b1 :: b2 :: b3 :: rest =>
      b64chr (b1 / 4) :: b64chr (b1 % 4 * 16 + b2 / 16) ::
        b64chr (b2 % 16 * 4 + b3 / 64) :: b64chr (b3 % 64) :: b64enc rest

/-- Value of a base64 alphabet character. -/
def b64val (c : Char) : Option Nat :=
  let n := c.toNat
  if 65 ≤ n ∧ n ≤ 90 then some (n - 65)
  else if 97 ≤ n ∧ n ≤ 122 then some (n - 71)
  else if 48 ≤ n ∧ n ≤ 57 then some (n + 4)
  else if c = '+' then some 62
  else if c = '/' then some 63
  else none

/-- `base64.b64decode` (strict groups of four, `=`-padding at the end). -/
def b64dec : List Char → Option (List Nat)
  | [] => some []
  | c1 :: c2 :: c3 :: c4 :: rest =>
      match b64val c1, b64val c2 with
      | some v1, some v2 =>
          if c3 = '=' ∧ c4 = '=' ∧ rest = [] then some [v1 * 4 + v2 / 16]
          else if c4 = '=' ∧ rest = [] then
            match b64val c3 with
            | some v3 => some [v1 * 4 + v2 / 16, v2 % 16 * 16 + v3 / 4]
            | none => none
          else
            match b64val c3, b64val c4, b64dec rest with
            | some v3, some v4, some bs =>
                some ((v1 * 4 + v2 / 16) :: (v2 % 16 * 16 + v3 / 4) :: (v3 % 4 * 64 + v4) :: bs)
            | _, _, _ => none
      | _, _ => none
  | _ => none

/-- UTF-8 encoding of one character. -/
def utf8EncodeChar (c : Char) : List Nat :=
  let n := c.toNat
  if n < 128 then [n]
  else if n < 2048 then [192 + n / 64, 128 + n % 64]
  else if n < 65536 then [224 + n / 4096, 128 + n / 64 % 64, 128 + n % 64]
  else [240 + n / 262144, 128 + n / 4096 % 64, 128 + n / 64 % 64, 128 + n % 64]

/-- `str.encode('utf-8')` over the characters of a string. -/
def pyEncodeUtf8 (cs : List Char) : List Nat := (cs.map utf8EncodeChar).flatten

/-- `bytes.decode('utf-8')`, on the single-byte (ASCII) fragment — the
only bytes decoded anywhere in this development, since
`json.dumps(..., ensure_ascii=True)` output is ASCII. -/
def utf8DecodeAscii : List Nat → Option (List Char)
  | [] => some []
  | b :: rest =>
      if b < 128 then (utf8DecodeAscii rest).map (Char.ofNat b :: ·) else none

/-- `encode_variables` (src/app.py line 189):
`base64.b64encode(json.dumps(variables).encode('utf-8')).decode('utf-8')`. -/
def encode_variables (vs : JsonVal) : String :=
  String.mk (b64enc (pyEncodeUtf8 (dumpsVal vs)))

/-- The inverse chain for the C4 round-trip, modelled from the spec's
"base64-decodes to valid JSON": `json.loads(base64.b64decode(s))`. -/
def decodeVariables (s : String) : Option JsonVal :=
  (b64dec s.data).bind fun bs =>
    (utf8DecodeAscii bs).bind fun cs => parseJsonChars cs

/-- The characters `urllib.parse.quote` never escapes (`ALWAYS_SAFE`;
`urlencode` passes `safe=''`). -/
def isUrlSafe (c : Char) : Bool :=
  isUpperAZ c || ('a' ≤ c && c ≤ 'z') || isDigitC c ||
    c = '_' || c = '.' || c = '-' || c = '~'

/-- `urllib.parse.quote_plus` on one character. -/
def quotePlusChar (c : Char) : List Char :=
  if isUrlSafe c then [c]
  else if c = ' ' then ['+']
  else ((utf8EncodeChar c).map fun b => ['%', hexCharU (b / 16), hexCharU (b % 16)]).flatten

/-- `urllib.parse.quote_plus`. -/
def quotePlus (cs : List Char) : List Char := (cs.map quotePlusChar).flatten

/-- `urllib.parse.urlencode` with its default `quote_via=quote_plus`. -/
def urlencodeParams (params : List (String × String)) : List Char :=
  List.intercalate ['&']
    (params.map fun kv => quotePlus kv.1.data ++ '=' :: quotePlus kv.2.data)

/-- `urllib.parse.unquote_plus` on the single-byte (ASCII) fragment:
`+` → space, `%XX` → the byte, which must be ASCII here. -/
def unquotePlus : List Char → Option (List Char)
  | [] => some []
  | c :: rest =>
      if c = '+' then (unquotePlus rest).map (' ' :: ·)
      else if c = '%' then
        match rest with
        | h1 :: h2 :: rest2 =>
            match hexVal h1, hexVal h2 with
            | some a, some b =>
                if a * 16 + b < 128 then (unquotePlus rest2).map (Char.ofNat (a * 16 + b) :: ·)
                else none
            | _, _ => none
        | _ => none
      else (unquotePlus rest).map (c :: ·)

/-- Split a character list at every occurrence of `sep`. -/
def splitOnChar (sep : Char) : List Char → List (List Char)
  | [] => [[]]
  | c :: rest =>
      match splitOnChar sep rest with
      | [] => [[]]
      | g :: gs => if c = sep then [] :: g :: gs else (c :: g) :: gs

/-- Split `key=value` at the first `=`. -/
def splitKV (cs : List Char) : List Char × List Char :=
  (cs.takeWhile (· ≠ '='), (cs.dropWhile (· ≠ '=')).drop 1)

def paramLookup (name : String) : List (List Char) → Option String
  | [] => none
  | pair :: rest =>
      let (k, v) := splitKV pair
      match unquotePlus k with
      | some kd =>
          if kd = name.data then (unquotePlus v).map String.mk
          else paramLookup name rest
      | none => paramLookup name rest

/-- Decode the query string of a URL and look up one parameter. -/
def getQueryParam (url : String) (name : String) : Option String :=
  paramLookup name (splitOnChar '&' ((url.data.dropWhile (· ≠ '?')).drop 1))

/-- `VTEX_BASE_URL` (src/app.py line 39). -/
def VTEX_BASE_URL : String := "https://www.juguetron.mx/_v/segment/graphql/v1"

/-- src/app.py line 42. -/
def AUTOCOMPLETE_HASH : String :=
  "069177eb2c038ccb948b55ca406e13189adcb5addcb00c25a8400450d20e0108"

/-- src/app.py line 43. -/
def PRODUCT_SUGGESTIONS_HASH : String :=
  "3eca26a431d4646a8bbce2644b78d3ca734bf8b4ba46afe4269621b64b0fb67d"

/-- The `extensions` object `build_url` serializes. -/
def extensionsObj (hashValue : String) (vs : JsonVal) : JsonVal :=
  .obj [("persistedQuery", .obj [
      ("version", .num 1 0),
      ("sha256Hash", .str hashValue),
      ("sender", .str "vtex.store-resources@0.x"),
      ("provider", .str "vtex.search-graphql@0.x")]),
    ("variables", .str (encode_variables vs))]

/-- `build_url` (src/app.py lines 194–217). -/
def build_url (operation_name : String) (hash_value : String) (vs : JsonVal) :
    String :=
  let params : List (String × String) := [
    ("workspace", "master"),
    ("maxAge", "medium"),
    ("domain", "store"),
    ("locale", "es-MX"),
    ("operationName", operation_name),
    ("extensions", dumps (extensionsObj hash_value vs))]
  VTEX_BASE_URL ++ "?" ++ String.mk (urlencodeParams params)

/-- The autocomplete variables of `execute_search`: `{"fullText": query}`. -/
def varsAutocomplete (query : String) : JsonVal := .obj [("fullText", .str query)]

/-- The product-suggestions variables of `execute_search` (lines 272–286). -/
def varsProducts (query : String) : JsonVal := .obj [
  ("fullText", .str query),
  ("productOriginVtex", .bool true),
  ("simulationBehavior", .str "default"),
  ("hideUnavailableItems", .bool false),
  ("advertisementOptions", .obj [
    ("showSponsored", .bool true),
    ("sponsoredCount", .num 2 0),
    ("repeatSponsoredProducts", .bool false),
    ("advertisementPlacement", .str "autocorrect")]),
  ("count", .num 12 0),
  ("shippingOptions", .arr []),
  ("variant", .null),
  ("origin", .str "autocorrect")]

/-- Field access on a parsed JSON object. -/
def jGet (v : JsonVal) (k : String) : Option JsonVal :=
  match v with
  | .obj kvs => dictGet kvs k
  | _ => none

/-- Decode, from a built URL, the variables mapping embedded in the
`extensions` parameter. -/
def urlDecodedVariables (url : String) : Option JsonVal :=
  (getQueryParam url "extensions").bind fun ext =>
    (parseJson ext).bind fun j =>
      match jGet j "variables" with
      | some (.str s) => decodeVariables s
      | _ => none

/-- Extract, from a built URL, the `sha256Hash` of the persisted-query
descriptor in the `extensions` parameter. -/
def urlPersistedHash (url : String) : Option JsonVal :=
  (getQueryParam url "extensions").bind fun ext =>
    (parseJson ext).bind fun j =>
      (jGet j "persistedQuery").bind fun pq => jGet pq "sha256Hash"

/-! ## Spec-side comparison definitions

Each `cNClaim…` definition renders the CLAIM's words (not the code); each
`cNAmended…` definition renders the amended claim.  They are compared
with the source-derived functions in the theorems below. -/

/-- C1 as claimed: candidates tried in order, the first structurally
valid shape wins — in particular a malformed `productSuggestions` falls
through to `searchResult`. -/
def c1ClaimSelect (kvs : List (String × JsonVal)) : JsonVal :=
  let cand1 : Option JsonVal :=
    match dictGet kvs "productSuggestions" with
    | some (.obj skvs) => dictGet skvs "products"
    | _ => none
  let cand2 : Option JsonVal :=
    match dictGet kvs "productSuggestions" with
    | some (.arr xs) => some (.arr xs)
    | _ => none
  let cand3 : Option JsonVal :=
    match dictGet kvs "searchResult" with
    | some (.obj skvs) => dictGet skvs "products"
    | _ => none
  let cand4 : Option JsonVal :=
    match dictGet kvs "searchResult" with
    | some (.arr xs) => some (.arr xs)
    | _ => none
  (((cand1 <|> cand2) <|> cand3) <|> cand4).getD (.arr [])

/-- C1 amended: the container is chosen by KEY PRESENCE — when the
`productSuggestions` key exists, `searchResult` is never consulted, and a
structurally invalid `productSuggestions` yields the empty list. -/
def c1AmendedSelect (kvs : List (String × JsonVal)) : JsonVal :=
  let shapeOf (so : JsonVal) : JsonVal :=
    match so with
    | .obj skvs => (dictGet skvs "products").getD (.arr [])
    | .arr xs => .arr xs
    | _ => .arr []
  match dictGet kvs "productSuggestions" with
  | some so => shapeOf so
  | none =>
      match dictGet kvs "searchResult" with
      | some so => shapeOf so
      | none => .arr []

/-- The `priceRange.sellingPrice` branch of C2/C3, as the code reaches it. -/
def sellingOf (kvs : List (String × JsonVal)) : Option JsonVal :=
  match dictGet kvs "priceRange" with
  | some (.obj prkvs) => dictGet prkvs "sellingPrice"
  | _ => none

/-- C2 hypothesis, part 1: the `sellingPrice` branch sets no price —
`sellingPrice` is absent (or `priceRange` absent / not a record) or is
neither a record nor a number. -/
def sellingBranchInert (kvs : List (String × JsonVal)) : Bool :=
  match sellingOf kvs with
  | some selling => ¬ isDict selling && ¬ pyIsNumber selling
  | none => true

/-- C2 hypothesis, part 2: `offer.offerPrice` is not a number. -/
def offerBranchInert (kvs : List (String × JsonVal)) : Bool :=
  match dictGet kvs "offer" with
  | some (.obj okvs) =>
      match dictGet okvs "offerPrice" with
      | some op => ¬ pyIsNumber op
      | none => true
  | _ => true

/-- C3 as claimed: from a `sellingPrice` record, `lowPrice` is used
whenever PRESENT (including `0`), `highPrice` only when `lowPrice` is
absent; a numeric `sellingPrice` is used directly; else a numeric
`offer.offerPrice`; the chosen number formatted to two decimals. -/
def c3ClaimPrice (kvs : List (String × JsonVal)) : Option String :=
  let fmtNum (v : JsonVal) : Option String :=
    match v with
    | .num m e => some ("$" ++ fmt2Dec m e ++ " MXN")
    | .bool b => some ("$" ++ fmt2Dec (if b then 1 else 0) 0 ++ " MXN")
    | _ => none
  match sellingOf kvs with
  | some (.obj spkvs) =>
      match dictGet spkvs "lowPrice" with
      | some low => fmtNum low
      | none =>
          match dictGet spkvs "highPrice" with
          | some high => fmtNum high
          | none => none
  | some selling =>
      if pyIsNumber selling then fmtNum selling
      else
        match dictGet kvs "offer" with
        | some (.obj okvs) => (dictGet okvs "offerPrice").bind fmtNum
        | _ => none
  | none =>
      match dictGet kvs "offer" with
      | some (.obj okvs) => (dictGet okvs "offerPrice").bind fmtNum
      | _ => none

/-- C3 amended: from a `sellingPrice` record the chosen value is
`lowPrice` when that is present and TRUTHY (nonzero), otherwise
`highPrice`, defaulting to the number `0` when absent; formatting a
non-numeric chosen value raises.  The numeric-`sellingPrice` and
`offer.offerPrice` candidates are as claimed. -/
def c3AmendedPrice (kvs : List (String × JsonVal)) : Except PyExc (Option String) :=
  let offerPart : Except PyExc (Option String) :=
    match dictGet kvs "offer" with
    | some (.obj okvs) =>
        match dictGet okvs "offerPrice" with
        | some op =>
            if pyIsNumber op then (formatMoney op).map some else .ok none
        | none => .ok none
    | _ => .ok none
  match sellingOf kvs with
  | some (.obj spkvs) =>
      let high := (dictGet spkvs "highPrice").getD (.num 0 0)
      let chosen :=
        match dictGet spkvs "lowPrice" with
        | some low => if pyTruthy low then low else high
        | none => high
      (formatMoney chosen).map some
  | some selling =>
      if pyIsNumber selling then (formatMoney selling).map some else offerPart
  | none => offerPart

/-- C6 as claimed: the resolved name is the first PRESENT of
`productName`, `name`; a record whose resolved name is absent or the
empty string is excluded. -/
def c6ClaimName (kvs : List (String × JsonVal)) : Option JsonVal :=
  dictGet kvs "productName" <|> dictGet kvs "name"

/-! # Theorems -/

/-! ## Helper lemmas -/

theorem toStrField_ok {v : JsonVal} {s : String} (h : toStrField v = .ok s) :
    v = .str s := by
  cases v <;> simp [toStrField] at h <;> simp [h]

theorem pyDedup_go_pairwise (xs : List JsonVal) :
    ∀ acc : List JsonVal, List.Pairwise (fun a b => pyEq a b = false) acc →
      List.Pairwise (fun a b => pyEq a b = false)
        (xs.foldl (fun acc x => if acc.any (fun a => pyEq a x) then acc else acc ++ [x]) acc) := by
  induction xs with
  | nil => intro acc h; simpa using h
  | cons x xs ih =>
      intro acc h
      simp only [List.foldl_cons]
      by_cases hx : acc.any (fun a => pyEq a x)
      · simpa [hx] using ih acc h
      · rw [if_neg hx]
        refine ih (acc ++ [x]) ?_
        rw [List.pairwise_append]
        refine ⟨h, by simp, ?_⟩
        intro a ha b hb
        simp only [List.mem_singleton] at hb
        subst hb
        by_contra hc
        simp only [Bool.not_eq_false] at hc
        exact hx (List.any_eq_true.mpr ⟨a, ha, hc⟩)

theorem pyDedup_pairwise (xs : List JsonVal) :
    List.Pairwise (fun a b => pyEq a b = false) (pyDedup xs) :=
  pyDedup_go_pairwise xs [] (by simp)

theorem mem_parseProductsLoop {p : ProductM} :
    ∀ (items : List JsonVal) (acc : List ProductM),
      p ∈ (match parseProductsLoop acc items with
            | .ok l => l
            | .error (_, l) => l) →
      p ∈ acc ∨ ∃ raw, mkProduct raw = .ok (some p) := by
  intro items
  induction items with
  | nil => intro acc h; exact Or.inl (by simpa [parseProductsLoop] using h)
  | cons raw rest ih =>
      intro acc h
      rw [parseProductsLoop] at h
      cases hm : mkProduct raw with
      | error e =>
          rw [hm] at h
          exact Or.inl (by simpa using h)
      | ok o =>
          cases o with
          | none => rw [hm] at h; exact ih acc h
          | some q =>
              rw [hm] at h
              rcases ih (acc ++ [q]) h with hin | hex
              · rcases List.mem_append.mp hin with h1 | h2
                · exact Or.inl h1
                · simp only [List.mem_singleton] at h2
                  subst h2
                  exact Or.inr ⟨raw, hm⟩
              · exact Or.inr hex

theorem mem_parse_products {d : JsonVal} {q : String} {p : ProductM}
    (h : p ∈ parse_products d q) : ∃ raw, mkProduct raw = .ok (some p) := by
  unfold parse_products parseProductsTry at h
  rcases h1 : pyIn "data" d with e | b
  · simp only [h1] at h; simp at h
  · simp only [h1] at h
    cases b
    · simp at h
    · rcases h2 : pySubscr d "data" with e | result
      · simp only [h2] at h; simp at h
      · simp only [h2] at h
        rcases h3 : selectRaw result with e | rawProducts
        · simp only [h3] at h; simp at h
        · simp only [h3] at h
          rcases h4 : pyIter rawProducts with e | items
          · simp only [h4] at h; simp at h
          · simp only [h4] at h
            rcases mem_parseProductsLoop items [] h with hin | hex
            · simp at hin
            · exact hex

theorem mkProduct_name {kvs : List (String × JsonVal)} {p : ProductM}
    (h : mkProduct (.obj kvs) = .ok (some p)) :
    pyTruthy (nameValue kvs) = true ∧ nameValue kvs = .str p.name := by
  simp only [mkProduct] at h
  rcases h1 : computePrice kvs with e | price
  · simp only [h1] at h; exact Except.noConfusion h
  simp only [h1] at h
  rcases h2 : computeImage kvs with e | imgV
  · simp only [h2] at h; exact Except.noConfusion h
  simp only [h2] at h
  rcases h3 : computeUrl kvs with e | urlV
  · simp only [h3] at h; exact Except.noConfusion h
  simp only [h3] at h
  rcases h4 : computeBrand kvs with e | brandV
  · simp only [h4] at h; exact Except.noConfusion h
  simp only [h4] at h
  rcases h5 : computeCategory kvs with e | cat
  · simp only [h5] at h; exact Except.noConfusion h
  simp only [h5] at h
  by_cases ht : pyTruthy (nameValue kvs)
  · simp only [ht, if_true] at h
    rcases h6 : toStrField (nameValue kvs) with e | nm
    · simp only [h6] at h; exact Except.noConfusion h
    simp only [h6] at h
    rcases h7 : toOptStr (pyOr ((dictGet kvs "description").getD .null)
        ((dictGet kvs "shortDescription").getD .null)) with e | ds
    · simp only [h7] at h; exact Except.noConfusion h
    simp only [h7] at h
    rcases h8 : toOptStr imgV with e | iu
    · simp only [h8] at h; exact Except.noConfusion h
    simp only [h8] at h
    rcases h9 : toOptStr urlV with e | pu
    · simp only [h9] at h; exact Except.noConfusion h
    simp only [h9] at h
    rcases h10 : toOptStr brandV with e | br
    · simp only [h10] at h; exact Except.noConfusion h
    simp only [h10] at h
    simp only [Except.ok.injEq, Option.some.injEq] at h
    subst h
    exact ⟨ht, toStrField_ok h6⟩
  · simp only [ht, if_false] at h
    simp at h

theorem mkProduct_not_emitted {kvs : List (String × JsonVal)} {p : ProductM}
    (ht : pyTruthy (nameValue kvs) = false) :
    mkProduct (.obj kvs) ≠ .ok (some p) := by
  intro h
  have := (mkProduct_name h).1
  rw [ht] at this
  cases this

theorem pyTruthy_str_ne {s : String} (h : pyTruthy (.str s) = true) : s ≠ "" := by
  simpa [pyTruthy] using h

/-! ## C1 -/

/-- C1 (corrected, amended form): the container is selected by key
presence — when `data.productSuggestions` exists, its `products` field is
used if it is a record carrying one, itself if it is a list, and
otherwise the raw list is empty WITHOUT consulting `searchResult`;
`searchResult` (same shapes) is consulted only when `productSuggestions`
is absent; if neither key is present the result is empty. -/
theorem claim_C1 : ∀ kvs : List (String × JsonVal),
    selectRaw (.obj kvs) = .ok (c1AmendedSelect kvs) := by
  intro kvs
  unfold selectRaw c1AmendedSelect pyIn pySubscr
  cases hps : dictGet kvs "productSuggestions" with
  | some so =>
      cases so <;> simp [hps]
      case obj skvs => cases hpr : dictGet skvs "products" <;> simp [hpr]
  | none =>
      cases hsr : dictGet kvs "searchResult" with
      | some so =>
          cases so <;> simp [hps, hsr]
          case obj skvs => cases hpr : dictGet skvs "products" <;> simp [hpr]
      | none => simp [hps, hsr]

/-- C1 counterexample: `data.productSuggestions` present but structurally
invalid (a number) while `data.searchResult` is a record with a products
list; the claim's fallthrough chain would surface product `"X"`, but the
code's `elif` never consults `searchResult` and the search yields no
products. -/
theorem claim_C1_counterexample :
    selectRaw (.obj [("productSuggestions", .num 5 0),
      ("searchResult", .obj [("products", .arr [.obj [("productName", .str "X")]])])])
      = .ok (.arr []) ∧
    c1ClaimSelect [("productSuggestions", .num 5 0),
      ("searchResult", .obj [("products", .arr [.obj [("productName", .str "X")]])])]
      = .arr [.obj [("productName", .str "X")]] ∧
    selectRaw (.obj [("productSuggestions", .num 5 0),
      ("searchResult", .obj [("products", .arr [.obj [("productName", .str "X")]])])])
      ≠ .ok (c1ClaimSelect [("productSuggestions", .num 5 0),
        ("searchResult", .obj [("products", .arr [.obj [("productName", .str "X")]])])]) ∧
    parse_products (.obj [("data", .obj [("productSuggestions", .num 5 0),
      ("searchResult", .obj [("products", .arr [.obj [("productName", .str "X")]])])])]) "q"
      = [] := by
  refine ⟨by decide, by decide, by decide, by decide⟩

/-! ## C2 -/

theorem sellingStep_inert {kvs : List (String × JsonVal)}
    (h : sellingBranchInert kvs = true) : sellingStep kvs = .ok none := by
  unfold sellingStep
  unfold sellingBranchInert sellingOf at h
  rcases hpr : dictGet kvs "priceRange" with _ | v
  · simp [hpr]
  · cases v <;> simp only [hpr] at h ⊢ <;> try rfl
    case obj prkvs =>
      rcases hsp : dictGet prkvs "sellingPrice" with _ | selling
      · simp [hsp]
      · simp only [hsp] at h ⊢
        cases selling <;> simp_all [isDict, pyIsNumber]

theorem offerStep_inert {kvs : List (String × JsonVal)}
    (h : offerBranchInert kvs = true) : offerStep kvs = .ok none := by
  unfold offerStep
  unfold offerBranchInert at h
  rcases ho : dictGet kvs "offer" with _ | v
  · simp [ho]
  · cases v <;> simp only [ho] at h ⊢ <;> try rfl
    case obj okvs =>
      rcases hop : dictGet okvs "offerPrice" with _ | op
      · simp [hop]
      · simp only [hop] at h ⊢
        simp_all

/-- C2 (corrected, amended form).  Part 1: when the `sellingPrice`
candidate is absent or is neither a record nor a number, and
`offer.offerPrice` is not a number, the price is absent.  Part 2 (the
correction): when `priceRange.sellingPrice` IS a record but carries
neither `lowPrice` nor `highPrice` — including the empty record — the
code emits the zero-formatted string `"$0.00 MXN"` instead of omitting
the price (`highPrice` defaults to `0`). -/
theorem claim_C2 :
    (∀ kvs : List (String × JsonVal), sellingBranchInert kvs = true →
      offerBranchInert kvs = true → computePrice kvs = Except.ok none) ∧
    (∀ (kvs prkvs spkvs : List (String × JsonVal)),
      dictGet kvs "priceRange" = some (.obj prkvs) →
      dictGet prkvs "sellingPrice" = some (.obj spkvs) →
      dictGet spkvs "lowPrice" = none → dictGet spkvs "highPrice" = none →
      computePrice kvs = Except.ok (some "$0.00 MXN")) := by
  constructor
  · intro kvs h1 h2
    unfold computePrice
    rw [sellingStep_inert h1]
    simpa using offerStep_inert h2
  · intro kvs prkvs spkvs hpr hsp hlow hhigh
    have hs : sellingStep kvs = .ok (some "$0.00 MXN") := by
      unfold sellingStep
      simp only [hpr, hsp, hlow, hhigh]
      rfl
    unfold computePrice
    rw [hs]
    rfl

theorem claim_C2_witness :
    computePrice [("priceRange", .obj [("sellingPrice", .str "n/a")])] = Except.ok none ∧
    computePrice [("priceRange", .obj [("sellingPrice", .obj [("x", .null)])])]
      = Except.ok (some "$0.00 MXN") :=
  ⟨claim_C2.1 [("priceRange", .obj [("sellingPrice", .str "n/a")])] (by decide) (by decide),
   claim_C2.2 [("priceRange", .obj [("sellingPrice", .obj [("x", .null)])])]
     [("sellingPrice", .obj [("x", .null)])] [("x", .null)] (by decide) (by decide)
     (by decide) (by decide)⟩

/-- C2 counterexample: a product whose `priceRange.sellingPrice` is the
empty record — every price-bearing field missing — is emitted with price
`"$0.00 MXN"`, not with an absent price as the claim states. -/
theorem claim_C2_counterexample :
    parse_products (.obj [("data", .obj [("productSuggestions", .obj [("products", .arr
      [.obj [("productName", .str "P"),
        ("priceRange", .obj [("sellingPrice", .obj [])])]])])])]) "q"
      = [⟨"", "P", none, some "$0.00 MXN", none, none, none, none⟩] := by decide

/-! ## C3 -/

/-- C3 (corrected, amended form): `computePrice` coincides everywhere
with the amended resolution order — from a `sellingPrice` record the
chosen value is `lowPrice` when present and TRUTHY (nonzero), otherwise
`highPrice`, defaulting to the number `0` when `highPrice` is absent; a
numeric (or boolean) `sellingPrice` is used directly; otherwise a numeric
`offer.offerPrice`; the chosen value is formatted to two decimals as
`"$<v> MXN"`. -/
theorem claim_C3 : ∀ kvs : List (String × JsonVal),
    computePrice kvs = c3AmendedPrice kvs := by
  intro kvs
  unfold computePrice c3AmendedPrice sellingStep sellingOf
  rcases hpr : dictGet kvs "priceRange" with _ | v
  · simp only [hpr]
    rfl
  · cases v <;> simp only [hpr] <;> try rfl
    case obj prkvs =>
      rcases hsp : dictGet prkvs "sellingPrice" with _ | selling
      · simp only [hsp]; rfl
      · simp only [hsp]
        cases selling <;> try rfl
        case obj spkvs =>
          dsimp only
          have hval : pyOr ((dictGet spkvs "lowPrice").getD .null)
              ((dictGet spkvs "highPrice").getD (.num 0 0)) =
              (match dictGet spkvs "lowPrice" with
               | some low => if pyTruthy low then low
                   else (dictGet spkvs "highPrice").getD (.num 0 0)
               | none => (dictGet spkvs "highPrice").getD (.num 0 0)) := by
            rcases hlow : dictGet spkvs "lowPrice" with _ | low
            · simp [pyOr, pyTruthy]
            · simp [pyOr]
          rw [hval]
          rcases hfm : formatMoney (match dictGet spkvs "lowPrice" with
               | some low => if pyTruthy low then low
                   else (dictGet spkvs "highPrice").getD (.num 0 0)
               | none => (dictGet spkvs "highPrice").getD (.num 0 0)) with e | s
          · simp [hfm, Except.map]
          · simp [hfm, Except.map]

/-- C3 counterexample: with `lowPrice = 0` (present) and
`highPrice = 100`, the claim derives the price from `lowPrice`
(`"$0.00 MXN"`), but the code's `or` treats `0` as missing and emits
`"$100.00 MXN"`. -/
theorem claim_C3_counterexample :
    computePrice [("priceRange", .obj [("sellingPrice",
      .obj [("lowPrice", .num 0 0), ("highPrice", .num 100 0)])])]
      = Except.ok (some "$100.00 MXN") ∧
    c3ClaimPrice [("priceRange", .obj [("sellingPrice",
      .obj [("lowPrice", .num 0 0), ("highPrice", .num 100 0)])])]
      = some "$0.00 MXN" ∧
    computePrice [("priceRange", .obj [("sellingPrice",
      .obj [("lowPrice", .num 0 0), ("highPrice", .num 100 0)])])]
      ≠ Except.ok (c3ClaimPrice [("priceRange", .obj [("sellingPrice",
        .obj [("lowPrice", .num 0 0), ("highPrice", .num 100 0)])])]) := by
  refine ⟨by decide, by decide, by decide⟩

/-! ## C5 -/

/-- C5 (confirmed): whenever `extract_suggestions` returns a list (it can
instead raise, see C7), that list has at most 10 entries and no two
entries are equal under Python `==` — in particular no duplicate
strings. -/
theorem claim_C5 : ∀ (d : JsonVal) (l : List JsonVal),
    parse_suggestions d = Except.ok l →
    l.length ≤ 10 ∧ List.Pairwise (fun a b => pyEq a b = false) l := by
  intro d l h
  unfold parse_suggestions pySetList at h
  by_cases hall : ((suggCollect d).1).all pyHashable
  · simp only [hall, if_true, Except.map] at h
    have hl : l = (pyDedup (suggCollect d).1).take 10 := by
      cases h; rfl
    subst hl
    exact ⟨List.length_take_le 10 _,
      (pyDedup_pairwise _).sublist (List.take_sublist 10 _)⟩
  · simp only [Bool.not_eq_true] at hall
    rw [hall] at h
    simp [Except.map] at h

theorem claim_C5_witness :
    ([JsonVal.str "lego"] : List JsonVal).length ≤ 10 ∧
    List.Pairwise (fun a b => pyEq a b = false) [JsonVal.str "lego"] :=
  claim_C5 (.obj [("data", .obj [("autocompleteSearchSuggestions", .obj
    [("searches", .arr [.obj [("term", .str "lego")], .obj [("term", .str "lego")]])])])])
    [.str "lego"] (by decide)

/-! ## C6 -/

/-- C6 (corrected, amended form): every product `extract_products` emits
has a non-empty name; the resolved name value is
`raw.get("productName") or raw.get("name", "")` — the first TRUTHY (not
merely present) of the two, so a present-but-empty `productName` falls
through to `name` — and a record whose resolved name value is falsy is
never emitted. -/
theorem claim_C6 :
    (∀ (d : JsonVal) (q : String) (p : ProductM),
      p ∈ parse_products d q → p.name ≠ "") ∧
    (∀ (kvs : List (String × JsonVal)) (p : ProductM),
      mkProduct (.obj kvs) = .ok (some p) →
      nameValue kvs = .str p.name ∧ pyTruthy (nameValue kvs) = true) ∧
    (∀ (kvs : List (String × JsonVal)) (p : ProductM),
      pyTruthy (nameValue kvs) = false → mkProduct (.obj kvs) ≠ .ok (some p)) := by
  refine ⟨?_, ?_, ?_⟩
  · intro d q p hmem
    obtain ⟨raw, hraw⟩ := mem_parse_products hmem
    cases raw <;> try simp [mkProduct] at hraw
    case obj kvs =>
      obtain ⟨ht, hname⟩ := mkProduct_name hraw
      rw [hname] at ht
      exact pyTruthy_str_ne ht
  · intro kvs p h
    have := mkProduct_name h
    exact ⟨this.2, this.1⟩
  · intro kvs p ht
    exact mkProduct_not_emitted ht

theorem claim_C6_witness :
    ({ id := "", name := "Peluche", description := none, price := none,
       image_url := none, product_url := none, brand := none,
       category := none } : ProductM).name ≠ "" ∧
    nameValue [("productName", .str "Peluche")] = .str "Peluche" := by
  constructor
  · exact claim_C6.1 (.obj [("data", .obj [("productSuggestions", .obj [("products",
      .arr [.obj [("productName", .str "Peluche")]])])])]) "q" _ (by decide)
  · exact (claim_C6.2.1 [("productName", .str "Peluche")]
      ⟨"", "Peluche", none, none, none, none, none, none⟩ (by decide)).1

/-- C6 counterexample: a record with a PRESENT but empty `productName`
and `name = "X"`.  Under the claim's resolution ("first present of
`productName` then `name`") the resolved name is `""` and the record must
be dropped; the code falls through to `name` and emits the product with
name `"X"`. -/
theorem claim_C6_counterexample :
    mkProduct (.obj [("productName", .str ""), ("name", .str "X")])
      = .ok (some ⟨"", "X", none, none, none, none, none, none⟩) ∧
    c6ClaimName [("productName", .str ""), ("name", .str "X")]
      = some (.str "") := by
  refine ⟨by decide, by decide⟩

/-! ## C7 -/

/-- C7 (corrected, amended form).  Part 1: `extract_products` never
propagates — an exception anywhere in its body yields exactly the
products collected before the failure.  Part 2: `extract_suggestions`
likewise swallows exceptions raised while collecting, but its final
`list(set(...))[:10]` runs OUTSIDE the handler; whenever every collected
entry is hashable it returns normally (the counterexample shows the
remaining case raising). -/
theorem claim_C7 :
    (∀ (d : JsonVal) (q : String) (e : PyExc) (l : List ProductM),
      parseProductsTry d q = Except.error (e, l) → parse_products d q = l) ∧
    (∀ d : JsonVal, (∀ x ∈ (suggCollect d).1, pyHashable x = true) →
      ∃ l, parse_suggestions d = Except.ok l) := by
  constructor
  · intro d q e l h
    unfold parse_products
    rw [h]
  · intro d h
    unfold parse_suggestions pySetList
    have hall : ((suggCollect d).1).all pyHashable = true :=
      List.all_eq_true.mpr (fun x hx => h x hx)
    rw [hall]
    exact ⟨_, rfl⟩

theorem claim_C7_witness :
    parse_products (.obj [("data", .obj [("productSuggestions", .obj [("products", .arr [
      .obj [("productName", .str "A")],
      .obj [("productName", .str "B"),
        ("priceRange", .obj [("sellingPrice", .obj [("lowPrice", .str "bad")])])]])])])]) "q"
      = [⟨"", "A", none, none, none, none, none, none⟩] ∧
    ∃ l, parse_suggestions (.obj [("data", .obj [("autocompleteSearchSuggestions", .obj
      [("searches", .arr [.obj [("term", .str "a")]])])])]) = Except.ok l := by
  constructor
  · exact claim_C7.1 _ "q" PyExc.valueError _ (by decide)
  · exact claim_C7.2 _ (by decide)

/-- C7 counterexample: a well-formed `searches` entry whose `term` is a
LIST.  Collection succeeds (the raw term is appended), but
`list(set(suggestions))` — outside the `try` — raises `TypeError`
(unhashable type), and the exception propagates to the caller, contrary
to the claim that no exception ever escapes. -/
theorem claim_C7_counterexample :
    parse_suggestions (.obj [("data", .obj [("autocompleteSearchSuggestions", .obj
      [("searches", .arr [.obj [("term", .arr [])]])])])])
      = Except.error PyExc.typeError := by decide

/-! ## C8 -/

/-- C8 (code_bug evidence): with a SAT-valid RFC, ticket `"V12345678"`
and total `150.50`, the CFDI validation phase produces NO errors — the
request is recognised as a valid physical-store invoice and control
reaches the invoice-construction statement (src/app.py line 732).  That
line's f-string, `f"C{random.randint(100, 999)01-…"`, is malformed Python
(`…999)01` is an invalid decimal literal and the replacement field never
closes): a `SyntaxError`, so the successful response promised by the
claim can never be produced (and even with the braces repaired, `:D2` is
an unknown format code for `int`).  `150.50` is carried as the exact
decimal `15050 / 10^2`; its Python float prints as `"150.5"`, passing
both physical-store total checks. -/
theorem claim_C8 :
    cfdiValidate "XAXX010101000" "V12345678" 15050 2 = [] ∧
    rfcFormatOk (rfcClean "XAXX010101000") = true ∧
    ticketPhysicalOk "V12345678" = true ∧
    pyFloatStr 15050 2 = "150.5" := by
  refine ⟨by decide, by decide, by decide, by decide⟩

/-! ## C9 -/

/-- C9 (confirmed): a POST body with neither `termino_busqueda` nor
`query` triggers no search and yields HTTP 400. -/
theorem claim_C9 : search_post none none = Except.error 400 := rfl

/-! ## C10 -/

/-- C10 (confirmed): both fields present but empty is rejected with the
same 400 as a missing term, and `execute_search` is only ever invoked
with a non-empty query string through this endpoint. -/
theorem claim_C10 :
    search_post (some "") (some "") = Except.error 400 ∧
    ∀ (tb q : Option String) (s : String), search_post tb q = Except.ok s → s ≠ "" := by
  refine ⟨rfl, ?_⟩
  intro tb q s h hs
  subst hs
  unfold search_post at h
  rcases hq : pyOrOptStr tb q with _ | t
  · simp only [hq] at h
    exact Except.noConfusion h
  · simp only [hq] at h
    by_cases ht : t = ""
    · rw [if_pos ht] at h; exact Except.noConfusion h
    · rw [if_neg ht] at h
      exact ht (by cases h; rfl)

theorem claim_C10_witness :
    search_post (some "lego") none = Except.ok "lego" ∧ ("lego" : String) ≠ "" :=
  ⟨rfl, claim_C10.2 (some "lego") none "lego" rfl⟩

/-! ## C4 — helper lemmas: characters and digits -/

theorem char_valid_cases (c : Char) :
    c.toNat < 55296 ∨ (57343 < c.toNat ∧ c.toNat < 1114112) := by
  have := c.valid
  rcases this with h | ⟨h1, h2⟩
  · left; exact_mod_cast h
  · right; exact ⟨by exact_mod_cast h1, by exact_mod_cast h2⟩

theorem toNat_ofNat_valid {n : Nat} (h : n < 55296 ∨ (57343 < n ∧ n < 1114112)) :
    (Char.ofNat n).toNat = n := by
  have hv : n.isValidChar := by
    rcases h with h | ⟨h1, h2⟩
    · exact Or.inl h
    · exact Or.inr ⟨h1, h2⟩
  have hlt : n < 4294967296 := by
    rcases h with h | ⟨_, h2⟩ <;> omega
  simp only [Char.ofNat, hv, dif_pos]
  rfl

theorem toNat_ofNat_small {n : Nat} (h : n < 55296) : (Char.ofNat n).toNat = n :=
  toNat_ofNat_valid (Or.inl h)

theorem char_eq_iff_toNat {c d : Char} : c = d ↔ c.toNat = d.toNat := by
  constructor
  · intro h; rw [h]
  · intro h
    have := congrArg Char.ofNat h
    rwa [Char.ofNat_toNat, Char.ofNat_toNat] at this

theorem digitChar_toNat {k : Nat} (h : k < 10) : (digitChar k).toNat = 48 + k :=
  toNat_ofNat_small (by omega)

theorem isDigitC_digitChar {k : Nat} (h : k < 10) : isDigitC (digitChar k) = true := by
  simp [isDigitC, digitChar_toNat h]
  omega

theorem natDigitsAux_fuel_irrel :
    ∀ (f1 f2 n : Nat) (acc : List Char), n < f1 → n < f2 →
      natDigitsAux f1 n acc = natDigitsAux f2 n acc := by
  intro f1
  induction f1 with
  | zero => intro f2 n acc h1; omega
  | succ f1 ih =>
      intro f2 n acc h1 h2
      cases f2 with
      | zero => omega
      | succ f2 =>
          rw [natDigitsAux, natDigitsAux]
          by_cases hn : n < 10
          · simp [hn]
          · simp only [hn, if_false]
            have hpos : 0 < n := by omega
            have hdiv : n / 10 < n := Nat.div_lt_self hpos (by omega)
            exact ih f2 (n / 10) _ (by omega) (by omega)

theorem natDigitsAux_acc :
    ∀ (fuel n : Nat) (acc : List Char), n < fuel →
      natDigitsAux fuel n acc = natDigitsAux fuel n [] ++ acc := by
  intro fuel
  induction fuel with
  | zero => intro n acc h; omega
  | succ fuel ih =>
      intro n acc h
      rw [natDigitsAux, natDigitsAux]
      by_cases hn : n < 10
      · simp [hn]
      · simp only [hn, if_false]
        have hdiv : n / 10 < n := Nat.div_lt_self (by omega) (by omega)
        rw [ih (n / 10) _ (by omega), ih (n / 10) [digitChar (n % 10)] (by omega)]
        simp

theorem natDigits_step (n : Nat) :
    natDigits n = if n < 10 then [digitChar n]
      else natDigits (n / 10) ++ [digitChar (n % 10)] := by
  by_cases hn : n < 10
  · simp only [hn, if_true]
    rw [natDigits, natDigitsAux]
    simp [hn]
  · simp only [hn, if_false]
    rw [natDigits, natDigitsAux]
    simp only [hn, if_false]
    have hdiv : n / 10 < n := Nat.div_lt_self (by omega) (by omega)
    rw [natDigitsAux_fuel_irrel n (n / 10 + 1) (n / 10) _ (by omega) (by omega)]
    exact natDigitsAux_acc (n / 10 + 1) (n / 10) _ (by omega)

theorem natDigits_ne_nil (n : Nat) : natDigits n ≠ [] := by
  rw [natDigits_step]
  by_cases hn : n < 10 <;> simp [hn]

theorem natDigits_digits (n : Nat) : ∀ c ∈ natDigits n, isDigitC c = true := by
  induction n using Nat.strong_induction_on with
  | _ n ih =>
      rw [natDigits_step]
      by_cases hn : n < 10
      · simp only [hn, if_true, List.mem_singleton]
        intro c hc; subst hc; exact isDigitC_digitChar hn
      · simp only [hn, if_false, List.mem_append, List.mem_singleton]
        intro c hc
        rcases hc with hc | hc
        · exact ih (n / 10) (Nat.div_lt_self (by omega) (by omega)) c hc
        · subst hc; exact isDigitC_digitChar (Nat.mod_lt n (by omega))

theorem foldl_digits_shift (b : List Char) :
    ∀ v : Nat, b.foldl (fun a c => a * 10 + (c.toNat - 48)) v
      = v * 10 ^ b.length + natFromDigits b := by
  induction b with
  | nil => intro v; simp [natFromDigits]
  | cons c t ih =>
      intro v
      simp only [List.foldl_cons, natFromDigits]
      rw [ih (v * 10 + (c.toNat - 48)), ih (0 * 10 + (c.toNat - 48))]
      simp [List.length_cons]
      ring

theorem natFromDigits_append (a b : List Char) :
    natFromDigits (a ++ b) = natFromDigits a * 10 ^ b.length + natFromDigits b := by
  unfold natFromDigits
  rw [List.foldl_append]
  exact foldl_digits_shift b _

theorem natFromDigits_natDigits (n : Nat) : natFromDigits (natDigits n) = n := by
  induction n using Nat.strong_induction_on with
  | _ n ih =>
      rw [natDigits_step]
      by_cases hn : n < 10
      · simp [hn, natFromDigits, digitChar_toNat hn]
      · simp only [hn, if_false]
        rw [natFromDigits_append,
          ih (n / 10) (Nat.div_lt_self (by omega) (by omega))]
        have h10 : n % 10 < 10 := Nat.mod_lt n (by omega)
        simp [natFromDigits, digitChar_toNat h10]
        omega

theorem headD_append_of_ne_nil {xs : List Char} (ys : List Char) (d : Char)
    (h : xs ≠ []) : (xs ++ ys).headD d = xs.headD d := by
  cases xs with
  | nil => exact absurd rfl h
  | cons a t => rfl

theorem natDigits_head_ne_zero {n : Nat} (h : n ≠ 0) :
    (natDigits n).headD '0' ≠ '0' := by
  induction n using Nat.strong_induction_on with
  | _ n ih =>
      rw [natDigits_step]
      by_cases hn : n < 10
      · simp only [hn, if_true, List.headD_cons]
        intro hc
        rw [char_eq_iff_toNat, digitChar_toNat hn] at hc
        have : ('0' : Char).toNat = 48 := by decide
        omega
      · simp only [hn, if_false]
        rw [headD_append_of_ne_nil _ _ (natDigits_ne_nil _)]
        exact ih (n / 10) (Nat.div_lt_self (by omega) (by omega)) (by omega)

theorem natDigits_length_one {n : Nat} (h : n < 10) : (natDigits n).length = 1 := by
  rw [natDigits_step]
  simp [h]

theorem natDigits_long {n : Nat} (h : 10 ≤ n) : 2 ≤ (natDigits n).length := by
  rw [natDigits_step]
  simp only [Nat.not_lt.mpr h, if_false, List.length_append, List.length_singleton]
  have := natDigits_ne_nil (n / 10)
  have : (natDigits (n / 10)).length ≠ 0 := fun hc => this (List.eq_nil_of_length_eq_zero hc)
  omega

/-! ## C4 — helper lemmas: number parsing -/

/-- The first character after a printed number (if any) neither continues
the digits nor opens a fraction. -/
def numBoundary (rest : List Char) : Prop :=
  ∀ c, rest.head? = some c → isDigitC c = false ∧ c ≠ '.'

theorem takeWhile_append_all {p : Char → Bool} :
    ∀ (xs rest : List Char), (∀ c ∈ xs, p c = true) →
      (∀ c, rest.head? = some c → p c = false) →
      (xs ++ rest).takeWhile p = xs ∧ (xs ++ rest).dropWhile p = rest := by
  intro xs
  induction xs with
  | nil =>
      intro rest _ hrest
      cases rest with
      | nil => simp
      | cons c t =>
          have := hrest c rfl
          simp [List.takeWhile, List.dropWhile, this]
  | cons x xs ih =>
      intro rest hall hrest
      have hx : p x = true := hall x (by simp)
      have := ih rest (fun c hc => hall c (by simp [hc])) hrest
      simp [List.takeWhile, List.dropWhile, hx, this.1, this.2]

theorem dash_toNat : ('-' : Char).toNat = 45 := by decide

theorem dot_toNat : ('.' : Char).toNat = 46 := by decide

theorem digit_ne_dash {c : Char} (h : isDigitC c = true) : c ≠ '-' := by
  intro hc
  rw [char_eq_iff_toNat, dash_toNat] at hc
  simp [isDigitC] at h
  omega

theorem digit_ne_dot {c : Char} (h : isDigitC c = true) : c ≠ '.' := by
  intro hc
  rw [char_eq_iff_toNat, dot_toNat] at hc
  simp [isDigitC] at h
  omega

/-- Parsing the canonical digit run of `a` (no sign, no fraction). -/
theorem parseNum_digits_only (a : Nat) (rest : List Char) (hb : numBoundary rest) :
    parseNum (natDigits a ++ rest) = some (.num a 0, rest) := by
  obtain ⟨c0, t0, hds⟩ : ∃ c0 t0, natDigits a = c0 :: t0 := by
    cases h : natDigits a with
    | nil => exact absurd h (natDigits_ne_nil a)
    | cons c t => exact ⟨c, t, rfl⟩
  have hdig : isDigitC c0 = true := natDigits_digits a c0 (by rw [hds]; simp)
  have hnd : c0 ≠ '-' := digit_ne_dash hdig
  rw [hds]
  rw [show (c0 :: t0) ++ rest = c0 :: (t0 ++ rest) from rfl]
  rw [parseNum]
  simp only [hnd, if_false, decide_eq_true_eq]
  have hsplit := takeWhile_append_all (c0 :: t0) rest
    (by rw [← hds]; exact natDigits_digits a)
    (fun c hc => (hb c hc).1)
  rw [show c0 :: (t0 ++ rest) = (c0 :: t0) ++ rest from rfl]
  rw [hsplit.1, hsplit.2]
  have hne : (c0 :: t0).isEmpty = false := by simp
  simp only [hne, Bool.false_eq_true, if_false]
  have hlz : ¬((c0 :: t0).headD '0' = '0' ∧ (c0 :: t0).length ≠ 1) := by
    rintro ⟨h1, h2⟩
    by_cases ha : a = 0
    · subst ha
      have : natDigits 0 = [digitChar 0] := by rw [natDigits_step]; simp
      rw [this] at hds
      cases hds
      simp at h2
    · exact natDigits_head_ne_zero ha (by rw [hds]; simpa using h1)
  simp only [hlz, if_false]
  cases rest with
  | nil =>
      simp only [← hds]
      rw [natFromDigits_natDigits]
  | cons c t =>
      have hc := hb c rfl
      have hcd : c ≠ '.' := hc.2
      simp only [hcd, if_false, ← hds]
      rw [natFromDigits_natDigits]

theorem padDigits_digits (a w : Nat) : ∀ c ∈ padDigits a w, isDigitC c = true := by
  unfold padDigits
  intro c hc
  rcases List.mem_append.mp hc with h | h
  · have := List.eq_of_mem_replicate h
    subst this
    decide
  · exact natDigits_digits a c h

theorem padDigits_length (a w : Nat) :
    (padDigits a w).length = max w (natDigits a).length := by
  unfold padDigits
  simp [List.length_replicate]
  omega

theorem natFromDigits_replicate_zero (k : Nat) (ds : List Char) :
    natFromDigits (List.replicate k '0' ++ ds) = natFromDigits ds := by
  rw [natFromDigits_append]
  have : natFromDigits (List.replicate k '0') = 0 := by
    induction k with
    | zero => rfl
    | succ k ih =>
        rw [List.replicate_succ]
        have : natFromDigits ('0' :: List.replicate k '0')
            = List.foldl (fun a c => a * 10 + (c.toNat - 48)) 0 (List.replicate k '0') := by
          simp [natFromDigits]
        rw [this]
        exact ih
  rw [this]
  simp

theorem natFromDigits_padDigits (a w : Nat) : natFromDigits (padDigits a w) = a := by
  unfold padDigits
  rw [natFromDigits_replicate_zero, natFromDigits_natDigits]

theorem parseNum_int_core (neg : Bool) (ds : List Char) (hne : ds ≠ [])
    (hall : ∀ c ∈ ds, isDigitC c = true)
    (hlz : ds.headD '0' = '0' → ds.length = 1)
    (rest : List Char) (hb : numBoundary rest) :
    parseNum ((if neg then ['-'] else []) ++ (ds ++ rest))
      = some (.num (if neg then -(natFromDigits ds : Int)
          else (natFromDigits ds : Int)) 0, rest) := by
  obtain ⟨c0, t0, hds⟩ : ∃ c0 t0, ds = c0 :: t0 := by
    cases ds with
    | nil => exact absurd rfl hne
    | cons c t => exact ⟨c, t, rfl⟩
  have hdig : isDigitC c0 = true := hall c0 (by rw [hds]; simp)
  have hnd : c0 ≠ '-' := digit_ne_dash hdig
  have hsplit := takeWhile_append_all ds rest hall (fun c hc => (hb c hc).1)
  have hlz' : ¬(ds.headD '0' = '0' ∧ ds.length ≠ 1) := by
    rintro ⟨h1, h2⟩; exact h2 (hlz h1)
  cases neg with
  | false =>
      simp only [Bool.false_eq_true, if_false, List.nil_append]
      rw [hds, show (c0 :: t0) ++ rest = c0 :: (t0 ++ rest) from rfl, parseNum]
      simp only [hnd, decide_eq_true_eq, if_false]
      rw [show c0 :: (t0 ++ rest) = (c0 :: t0) ++ rest from rfl, ← hds, hsplit.1, hsplit.2]
      have hne' : ds.isEmpty = false := by rw [hds]; simp
      simp only [hne', Bool.false_eq_true, if_false, hlz', if_false]
      cases hr : rest with
      | nil => simp
      | cons c t =>
          have hc := hb c (by rw [hr]; rfl)
          simp [hc.2]
  | true =>
      rw [show ((if (true : Bool) then ['-'] else []) ++ (ds ++ rest))
          = '-' :: (ds ++ rest) by simp]
      rw [parseNum]
      simp only [eq_self_iff_true, if_true]
      rw [hsplit.1, hsplit.2]
      have hne' : ds.isEmpty = false := by rw [hds]; simp
      simp only [hne', Bool.false_eq_true, if_false, hlz', if_false]
      cases hr : rest with
      | nil => simp
      | cons c t =>
          have hc := hb c (by rw [hr]; rfl)
          simp [hc.2]

theorem parseNum_frac_core (neg : Bool) (ds fs : List Char) (hne : ds ≠ [])
    (hall : ∀ c ∈ ds, isDigitC c = true)
    (hlz : ds.headD '0' = '0' → ds.length = 1)
    (hfne : fs ≠ []) (hfall : ∀ c ∈ fs, isDigitC c = true)
    (rest : List Char) (hb : numBoundary rest) :
    parseNum ((if neg then ['-'] else []) ++ (ds ++ ('.' :: (fs ++ rest))))
      = some (.num (if neg then -(natFromDigits (ds ++ fs) : Int)
          else (natFromDigits (ds ++ fs) : Int)) fs.length, rest) := by
  obtain ⟨c0, t0, hds⟩ : ∃ c0 t0, ds = c0 :: t0 := by
    cases ds with
    | nil => exact absurd rfl hne
    | cons c t => exact ⟨c, t, rfl⟩
  have hdig : isDigitC c0 = true := hall c0 (by rw [hds]; simp)
  have hnd : c0 ≠ '-' := digit_ne_dash hdig
  have hdotb : ∀ c : Char, ('.' :: (fs ++ rest)).head? = some c → isDigitC c = false := by
    intro c hc
    simp only [List.head?] at hc
    cases hc
    decide
  have hsplit := takeWhile_append_all ds ('.' :: (fs ++ rest)) hall hdotb
  have hfsplit := takeWhile_append_all fs rest hfall (fun c hc => (hb c hc).1)
  have hlz' : ¬(ds.headD '0' = '0' ∧ ds.length ≠ 1) := by
    rintro ⟨h1, h2⟩; exact h2 (hlz h1)
  have hne' : ds.isEmpty = false := by rw [hds]; simp
  have hfne' : fs.isEmpty = false := by
    cases fs with
    | nil => exact absurd rfl hfne
    | cons a b => simp
  cases neg with
  | false =>
      simp only [Bool.false_eq_true, if_false, List.nil_append]
      rw [hds, show (c0 :: t0) ++ ('.' :: (fs ++ rest)) = c0 :: (t0 ++ ('.' :: (fs ++ rest)))
        from rfl, parseNum]
      simp only [hnd, decide_eq_true_eq, if_false]
      rw [show c0 :: (t0 ++ ('.' :: (fs ++ rest))) = (c0 :: t0) ++ ('.' :: (fs ++ rest))
        from rfl, ← hds, hsplit.1, hsplit.2]
      simp only [hne', Bool.false_eq_true, if_false, hlz', if_false, if_pos rfl]
      rw [hfsplit.1, hfsplit.2]
      simp only [hfne', Bool.false_eq_true, if_false]
      rw [natFromDigits_append]
      simp
  | true =>
      rw [show ((if (true : Bool) then ['-'] else []) ++ (ds ++ ('.' :: (fs ++ rest))))
          = '-' :: (ds ++ ('.' :: (fs ++ rest))) by simp]
      rw [parseNum]
      simp only [eq_self_iff_true, if_true]
      rw [hsplit.1, hsplit.2]
      simp only [hne', Bool.false_eq_true, if_false, hlz', if_false, if_pos rfl]
      rw [hfsplit.1, hfsplit.2]
      simp only [hfne', Bool.false_eq_true, if_false]
      rw [natFromDigits_append]
      simp

theorem natAbs_digits_eq {m : Int} (hm : ¬m < 0) :
    (natFromDigits (natDigits m.natAbs) : Int) = m := by
  rw [natFromDigits_natDigits]
  omega

theorem natDigits_hlz (a : Nat) :
    (natDigits a).headD '0' = '0' → (natDigits a).length = 1 := by
  intro h
  by_cases ha : a = 0
  · subst ha
    rw [natDigits_step]
    simp
  · exact absurd h (natDigits_head_ne_zero ha)

theorem headD_take {k : Nat} {cs : List Char} (hk : 1 ≤ k) (hcs : cs ≠ []) :
    (cs.take k).headD '0' = cs.headD '0' := by
  cases cs with
  | nil => exact absurd rfl hcs
  | cons c t =>
      cases k with
      | zero => omega
      | succ k => simp [List.take_succ_cons]

theorem parseNum_decDigits (m : Int) (e : Nat) (rest : List Char) (hb : numBoundary rest) :
    parseNum ((decDigits m e).data ++ rest) = some (.num m e, rest) := by
  by_cases he : e = 0
  · subst he
    by_cases hm : m < 0
    · have hshape : (decDigits m 0).data ++ rest
          = (if true then ['-'] else []) ++ (natDigits m.natAbs ++ rest) := by
        unfold decDigits
        simp [hm, String.data_append]
      rw [hshape, parseNum_int_core true (natDigits m.natAbs) (natDigits_ne_nil _)
        (natDigits_digits _) (natDigits_hlz _) rest hb]
      have : -(natFromDigits (natDigits m.natAbs) : Int) = m := by
        rw [natFromDigits_natDigits]; omega
      rw [this]
      simp
    · have hshape : (decDigits m 0).data ++ rest
          = (if false then ['-'] else []) ++ (natDigits m.natAbs ++ rest) := by
        unfold decDigits
        simp [hm, String.data_append]
      rw [hshape, parseNum_int_core false (natDigits m.natAbs) (natDigits_ne_nil _)
        (natDigits_digits _) (natDigits_hlz _) rest hb]
      rw [show (natFromDigits (natDigits m.natAbs) : Int) = m from natAbs_digits_eq hm]
      simp
  · -- e ≠ 0: the printed form is intpart.fracpart
    have key : ∀ (neg : Bool) (cs : List Char), cs = padDigits m.natAbs (e + 1) →
        parseNum ((if neg then ['-'] else [])
          ++ (cs.take (cs.length - e) ++ ('.' :: (cs.drop (cs.length - e) ++ rest))))
        = some (.num (if neg then -(m.natAbs : Int) else (m.natAbs : Int)) e, rest) := by
      intro neg cs hcs
      have hcslen : cs.length = max (e + 1) (natDigits m.natAbs).length := by
        rw [hcs]; exact padDigits_length _ _
      have hall : ∀ c ∈ cs, isDigitC c = true := by
        rw [hcs]; exact padDigits_digits _ _
      have hvalcs : natFromDigits cs = m.natAbs := by
        rw [hcs]; exact natFromDigits_padDigits _ _
      have hs1 : 1 ≤ cs.length - e := by omega
      have hcsne : cs ≠ [] := by
        intro hnil
        rw [hnil] at hcslen
        simp at hcslen
        omega
      have hdsne : cs.take (cs.length - e) ≠ [] := by
        intro hnil
        have := congrArg List.length hnil
        rw [List.length_take, List.length_nil] at this
        omega
      have hfsne : cs.drop (cs.length - e) ≠ [] := by
        intro hnil
        have := congrArg List.length hnil
        rw [List.length_drop, List.length_nil] at this
        omega
      have hfslen : (cs.drop (cs.length - e)).length = e := by
        rw [List.length_drop]
        omega
      have hdsall : ∀ c ∈ cs.take (cs.length - e), isDigitC c = true :=
        fun c hc => hall c (List.mem_of_mem_take hc)
      have hfsall : ∀ c ∈ cs.drop (cs.length - e), isDigitC c = true :=
        fun c hc => hall c (List.mem_of_mem_drop hc)
      have hdslz : (cs.take (cs.length - e)).headD '0' = '0' →
          (cs.take (cs.length - e)).length = 1 := by
        intro h0
        rw [headD_take hs1 hcsne] at h0
        rw [List.length_take]
        by_cases hlen : (natDigits m.natAbs).length ≤ e
        · omega
        · have hpad : cs = natDigits m.natAbs := by
            rw [hcs]
            unfold padDigits
            simp only [show (e + 1) - (natDigits m.natAbs).length = 0 by omega,
              List.replicate_zero, List.nil_append]
          rw [hpad] at h0
          have hl1 := natDigits_hlz m.natAbs h0
          omega
      have hval : natFromDigits (cs.take (cs.length - e) ++ cs.drop (cs.length - e))
          = m.natAbs := by
        rw [List.take_append_drop]
        exact hvalcs
      rw [parseNum_frac_core neg _ _ hdsne hdsall hdslz hfsne hfsall rest hb, hval, hfslen]
    by_cases hm : m < 0
    · have hshape : (decDigits m e).data ++ rest
          = (if true then ['-'] else [])
            ++ ((padDigits m.natAbs (e + 1)).take ((padDigits m.natAbs (e + 1)).length - e)
              ++ ('.' :: ((padDigits m.natAbs (e + 1)).drop
                ((padDigits m.natAbs (e + 1)).length - e) ++ rest))) := by
        unfold decDigits
        simp only [he, if_false]
        simp [hm, String.data_append]
      rw [hshape, key true _ rfl]
      have : -(m.natAbs : Int) = m := by omega
      rw [this]
      simp
    · have hshape : (decDigits m e).data ++ rest
          = (if false then ['-'] else [])
            ++ ((padDigits m.natAbs (e + 1)).take ((padDigits m.natAbs (e + 1)).length - e)
              ++ ('.' :: ((padDigits m.natAbs (e + 1)).drop
                ((padDigits m.natAbs (e + 1)).length - e) ++ rest))) := by
        unfold decDigits
        simp only [he, if_false]
        simp [hm, String.data_append]
      rw [hshape, key false _ rfl]
      have : (m.natAbs : Int) = m := by omega
      rw [this]
      simp

/-! ## C4 — helper lemmas: string escaping -/

theorem hexVal_hexCharL : ∀ k < 16, hexVal (hexCharL k) = some k := by
  decide

theorem readHex4_hex4 (n : Nat) (hn : n < 65536) (t : List Char) :
    readHex4 (hex4 n ++ t) = some (n, t) := by
  unfold hex4
  dsimp only [List.cons_append, List.nil_append]
  rw [readHex4]
  rw [hexVal_hexCharL _ (Nat.mod_lt _ (by omega)),
    hexVal_hexCharL _ (Nat.mod_lt _ (by omega)),
    hexVal_hexCharL _ (Nat.mod_lt _ (by omega)),
    hexVal_hexCharL _ (Nat.mod_lt _ (by omega))]
  dsimp only
  have hrec : n / 4096 % 16 * 4096 + n / 256 % 16 * 256 + n / 16 % 16 * 16 + n % 16
      = n := by omega
  rw [hrec]

theorem parseUEsc_bmp (n : Nat) (hn : n < 65536) (hv : n < 55296 ∨ 57343 < n)
    (t : List Char) : parseUEsc (hex4 n ++ t) = some (Char.ofNat n, t) := by
  unfold parseUEsc
  rw [readHex4_hex4 n hn]
  dsimp only
  rcases hv with hv | hv
  · rw [if_pos hv]
  · rw [if_neg (by omega), if_neg (by omega), if_neg (by omega)]

theorem parseUEsc_surrogate (hi lo : Nat) (hhi : 55296 ≤ hi ∧ hi < 56320)
    (hlo : 56320 ≤ lo ∧ lo < 57344) (t : List Char) :
    parseUEsc (hex4 hi ++ ('\\' :: 'u' :: (hex4 lo ++ t)))
      = some (Char.ofNat (65536 + (hi - 55296) * 1024 + (lo - 56320)), t) := by
  unfold parseUEsc
  rw [readHex4_hex4 hi (by omega)]
  dsimp only
  rw [if_neg (by omega), if_pos (by omega)]
  rw [if_pos ⟨rfl, rfl⟩, readHex4_hex4 lo (by omega)]
  dsimp only
  rw [if_pos ⟨by omega, by omega⟩]

theorem parseStrBody_lit (fuel : Nat) (acc t : List Char) (c : Char)
    (h1 : c ≠ '"') (h2 : c ≠ '\\') (h3 : ¬c.toNat < 32) :
    parseStrBody (fuel + 1) acc (c :: t) = parseStrBody fuel (acc ++ [c]) t := by
  conv_lhs => rw [parseStrBody.eq_def]
  dsimp only
  rw [if_neg h1, if_neg h2, if_neg h3]

theorem parseStrBody_close (fuel : Nat) (acc t : List Char) :
    parseStrBody (fuel + 1) acc ('"' :: t) = some (String.mk acc, t) := by
  conv_lhs => rw [parseStrBody.eq_def]
  dsimp only
  rw [if_pos rfl]

theorem parseStrBody_esc (fuel : Nat) (acc t : List Char) (e c' : Char)
    (he1 : e ≠ 'u') (he2 : jsonShortEsc e = some c') :
    parseStrBody (fuel + 1) acc ('\\' :: e :: t) = parseStrBody fuel (acc ++ [c']) t := by
  conv_lhs => rw [parseStrBody.eq_def]
  dsimp only
  rw [if_neg (by decide : ¬('\\' : Char) = '"'), if_pos rfl, if_neg he1, he2]

theorem parseStrBody_u (fuel : Nat) (acc rest2 t : List Char) (c' : Char)
    (h : parseUEsc rest2 = some (c', t)) :
    parseStrBody (fuel + 1) acc ('\\' :: 'u' :: rest2) = parseStrBody fuel (acc ++ [c']) t := by
  conv_lhs => rw [parseStrBody.eq_def]
  dsimp only
  rw [if_neg (by decide : ¬('\\' : Char) = '"'), if_pos rfl, if_pos rfl, h]

theorem parseStrBody_esc_step (c : Char) (fuel : Nat) (acc t : List Char) :
    parseStrBody (fuel + 1) acc (escJsonChar c ++ t) = parseStrBody fuel (acc ++ [c]) t := by
  have hval := char_valid_cases c
  unfold escJsonChar
  by_cases h1 : c = '\\'
  · subst h1
    exact parseStrBody_esc fuel acc t '\\' '\\' (by decide) (by decide)
  by_cases h2 : c = '"'
  · subst h2
    exact parseStrBody_esc fuel acc t '"' '"' (by decide) (by decide)
  by_cases h3 : c = '\x08'
  · subst h3
    exact parseStrBody_esc fuel acc t 'b' '\x08' (by decide) (by decide)
  by_cases h4 : c = '\t'
  · subst h4
    exact parseStrBody_esc fuel acc t 't' '\t' (by decide) (by decide)
  by_cases h5 : c = '\n'
  · subst h5
    exact parseStrBody_esc fuel acc t 'n' '\n' (by decide) (by decide)
  by_cases h6 : c = '\x0c'
  · subst h6
    exact parseStrBody_esc fuel acc t 'f' '\x0c' (by decide) (by decide)
  by_cases h7 : c = '\x0d'
  · subst h7
    exact parseStrBody_esc fuel acc t 'r' '\x0d' (by decide) (by decide)
  simp only [h1, h2, h3, h4, h5, h6, h7, if_false]
  by_cases h8 : 32 ≤ c.toNat ∧ c.toNat ≤ 126
  · simp only [h8, if_true, List.cons_append, List.nil_append]
    exact parseStrBody_lit fuel acc t c h2 h1 (by omega)
  · simp only [h8, if_false]
    by_cases h9 : c.toNat < 65536
    · simp only [h9, if_true]
      rw [show ('\\' :: 'u' :: hex4 c.toNat) ++ t
          = '\\' :: 'u' :: (hex4 c.toNat ++ t) by simp]
      rw [parseStrBody_u fuel acc _ t (Char.ofNat c.toNat)
        (parseUEsc_bmp c.toNat h9 (by omega) t), Char.ofNat_toNat]
    · simp only [h9, if_false]
      have hv2 : c.toNat < 1114112 := by rcases hval with h | ⟨_, h⟩ <;> omega
      rw [show (('\\' :: 'u' :: hex4 (55296 + (c.toNat - 65536) / 1024))
            ++ ('\\' :: 'u' :: hex4 (56320 + (c.toNat - 65536) % 1024))) ++ t
          = '\\' :: 'u' :: (hex4 (55296 + (c.toNat - 65536) / 1024)
            ++ ('\\' :: 'u' :: (hex4 (56320 + (c.toNat - 65536) % 1024) ++ t))) by simp]
      rw [parseStrBody_u fuel acc _ t
        (Char.ofNat (65536 + (55296 + (c.toNat - 65536) / 1024 - 55296) * 1024
          + (56320 + (c.toNat - 65536) % 1024 - 56320)))
        (parseUEsc_surrogate _ _ ⟨by omega, by omega⟩ ⟨by omega, by omega⟩ t)]
      have : 65536 + (55296 + (c.toNat - 65536) / 1024 - 55296) * 1024
          + (56320 + (c.toNat - 65536) % 1024 - 56320) = c.toNat := by omega
      rw [this, Char.ofNat_toNat]

theorem parseStrBody_escaped (cs : List Char) :
    ∀ (fuel : Nat) (acc rest : List Char), cs.length < fuel →
      parseStrBody fuel acc ((cs.map escJsonChar).flatten ++ '"' :: rest)
        = some (String.mk (acc ++ cs), rest) := by
  induction cs with
  | nil =>
      intro fuel acc rest h
      cases fuel with
      | zero => omega
      | succ fuel =>
          simp only [List.map_nil, List.flatten_nil, List.nil_append]
          rw [parseStrBody_close]
          simp
  | cons c cs ih =>
      intro fuel acc rest h
      cases fuel with
      | zero => simp at h
      | succ fuel =>
          simp only [List.map_cons, List.flatten_cons, List.append_assoc]
          rw [parseStrBody_esc_step c fuel acc _]
          rw [ih fuel (acc ++ [c]) rest (by simp at h; omega)]
          simp

/-! ## C4 — helper lemmas: JSON round-trip plumbing -/

theorem mkData (s : String) : String.mk s.data = s := by
  cases s
  rfl

theorem skipWs_cons (c : Char) (t : List Char) (h : isWsC c = false) :
    skipWs (c :: t) = c :: t := by
  unfold skipWs
  simp only [List.dropWhile_cons, h]
  rw [if_neg]
  simp

theorem skipWs_space (t : List Char) : skipWs (' ' :: t) = skipWs t := by
  unfold skipWs
  simp only [List.dropWhile_cons]
  rw [if_pos (by decide)]

theorem parseValue_space (fuel : Nat) (cs : List Char) :
    parseValue fuel (' ' :: cs) = parseValue fuel cs := by
  cases fuel with
  | zero =>
      rw [parseValue.eq_def]
      conv_rhs => rw [parseValue.eq_def]
  | succ f =>
      rw [parseValue.eq_def]
      conv_rhs => rw [parseValue.eq_def]
      dsimp only
      rw [skipWs_space]

theorem parseMember_space (fuel : Nat) (cs : List Char) :
    parseMember fuel (' ' :: cs) = parseMember fuel cs := by
  cases fuel with
  | zero =>
      rw [parseMember.eq_def]
      conv_rhs => rw [parseMember.eq_def]
  | succ f =>
      rw [parseMember.eq_def]
      conv_rhs => rw [parseMember.eq_def]
      dsimp only
      rw [skipWs_space]

theorem jsize_pos (v : JsonVal) : 1 ≤ jsize v := by
  cases v with
  | null => exact Nat.le_refl 1
  | bool b => cases b <;> exact Nat.le_refl 1
  | num m e => exact Nat.le_refl 1
  | str s => exact Nat.le_refl 1
  | arr xs => cases xs <;> simp [jsize] <;> omega
  | obj kvs => rcases kvs with _ | ⟨⟨k, v⟩, kvs⟩ <;> simp [jsize] <;> omega

theorem jsizeElems_pos (xs : List JsonVal) : 1 ≤ jsize.jsizeElems xs := by
  cases xs <;> simp [jsize.jsizeElems] <;> omega

theorem jsizeMembers_pos (kvs : List (String × JsonVal)) :
    1 ≤ jsize.jsizeMembers kvs := by
  rcases kvs with _ | ⟨⟨k, v⟩, kvs⟩ <;> simp [jsize.jsizeMembers] <;> omega

theorem escJsonChar_length_pos (c : Char) : 1 ≤ (escJsonChar c).length := by
  unfold escJsonChar
  split_ifs
  all_goals
    by_cases h : 32 ≤ c.toNat ∧ c.toNat ≤ 126 <;>
      by_cases h' : c.toNat < 65536 <;>
        simp [h, h', hex4]

theorem escFlatten_len (cs : List Char) :
    cs.length ≤ ((cs.map escJsonChar).flatten).length := by
  induction cs with
  | nil => simp
  | cons c t ih =>
      simp only [List.map_cons, List.flatten_cons, List.length_append, List.length_cons]
      have := escJsonChar_length_pos c
      omega

theorem parseStrBody_jstring (s : String) (rest : List Char) :
    parseStrBody (((s.data.map escJsonChar).flatten ++ '"' :: rest).length + 1) []
      ((s.data.map escJsonChar).flatten ++ '"' :: rest) = some (s, rest) := by
  have hlen : s.data.length
      < ((s.data.map escJsonChar).flatten ++ '"' :: rest).length + 1 := by
    rw [List.length_append]
    have := escFlatten_len s.data
    simp only [List.length_cons]
    omega
  rw [parseStrBody_escaped s.data _ [] rest hlen]
  simp only [List.nil_append, mkData]

theorem numBoundary_nil : numBoundary [] := by
  intro c h
  simp at h

theorem numBoundary_cons {c : Char} (h1 : isDigitC c = false) (h2 : c ≠ '.')
    (t : List Char) : numBoundary (c :: t) := by
  intro c' hc'
  simp only [List.head?_cons, Option.some.injEq] at hc'
  subst hc'
  exact ⟨h1, h2⟩

theorem numBoundary_elems (xs : List JsonVal) (rest : List Char) :
    numBoundary (dumpsVal.dumpsElems xs ++ rest) := by
  cases xs with
  | nil =>
      dsimp only [dumpsVal.dumpsElems, List.cons_append, List.nil_append]
      exact numBoundary_cons (by decide) (by decide) _
  | cons x t =>
      dsimp only [dumpsVal.dumpsElems, List.cons_append]
      exact numBoundary_cons (by decide) (by decide) _

theorem numBoundary_members (kvs : List (String × JsonVal)) (rest : List Char) :
    numBoundary (dumpsVal.dumpsMembers kvs ++ rest) := by
  rcases kvs with _ | ⟨⟨k, v⟩, kvs⟩
  · dsimp only [dumpsVal.dumpsMembers, List.cons_append, List.nil_append]
    exact numBoundary_cons (by decide) (by decide) _
  · dsimp only [dumpsVal.dumpsMembers, List.cons_append]
    exact numBoundary_cons (by decide) (by decide) _

theorem decDigits_head (m : Int) (e : Nat) :
    ∃ c t, (decDigits m e).data = c :: t ∧ (c = '-' ∨ isDigitC c = true) := by
  by_cases he : e = 0
  · subst he
    by_cases hm : m < 0
    · refine ⟨'-', natDigits m.natAbs, ?_, Or.inl rfl⟩
      unfold decDigits
      simp [hm, String.data_append]
    · cases h : natDigits m.natAbs with
      | nil => exact absurd h (natDigits_ne_nil _)
      | cons c t =>
          refine ⟨c, t, ?_, Or.inr ?_⟩
          · unfold decDigits
            simp [hm, String.data_append, h]
          · exact natDigits_digits _ c (h ▸ List.mem_cons_self c t)
  · by_cases hm : m < 0
    · refine ⟨'-', (padDigits m.natAbs (e + 1)).take ((padDigits m.natAbs (e + 1)).length - e)
        ++ ('.' :: (padDigits m.natAbs (e + 1)).drop ((padDigits m.natAbs (e + 1)).length - e)),
        ?_, Or.inl rfl⟩
      unfold decDigits
      simp only [he, if_false]
      simp [hm, String.data_append]
    · have hlen : 1 ≤ ((padDigits m.natAbs (e + 1)).take
          ((padDigits m.natAbs (e + 1)).length - e)).length := by
        rw [List.length_take]
        have := padDigits_length m.natAbs (e + 1)
        omega
      cases h : (padDigits m.natAbs (e + 1)).take ((padDigits m.natAbs (e + 1)).length - e) with
      | nil =>
          rw [h] at hlen
          simp at hlen
      | cons c t =>
          refine ⟨c, t ++ ('.' :: (padDigits m.natAbs (e + 1)).drop
            ((padDigits m.natAbs (e + 1)).length - e)), ?_, Or.inr ?_⟩
          · unfold decDigits
            simp only [he, if_false]
            simp [hm, String.data_append, h]
          · exact padDigits_digits m.natAbs (e + 1) c
              (List.mem_of_mem_take (h ▸ List.mem_cons_self c t))

theorem numHead_props {c : Char} (hc : c = '-' ∨ isDigitC c = true) :
    isWsC c = false ∧ c ≠ 'n' ∧ c ≠ 't' ∧ c ≠ 'f' ∧ c ≠ '"' ∧ c ≠ '[' ∧ c ≠ lbrace := by
  have hn : c.toNat = 45 ∨ (48 ≤ c.toNat ∧ c.toNat ≤ 57) := by
    rcases hc with h | h
    · left
      rw [h]
      decide
    · right
      simp only [isDigitC, Bool.and_eq_true, decide_eq_true_eq] at h
      exact h
  have hne : ∀ d : Char, d.toNat < 45 ∨ (45 < d.toNat ∧ d.toNat < 48) ∨ 57 < d.toNat →
      c ≠ d := by
    intro d hd he
    rw [char_eq_iff_toNat] at he
    rcases hn with h1 | h1 <;> rcases hd with h2 | h2 | h2 <;> omega
  refine ⟨?_, hne _ (by decide), hne _ (by decide), hne _ (by decide), hne _ (by decide),
    hne _ (by decide), hne _ (by decide)⟩
  rw [Bool.eq_false_iff]
  intro hw
  simp only [isWsC, Bool.or_eq_true, decide_eq_true_eq] at hw
  rcases hw with ((h | h) | h) | h
  · rw [char_eq_iff_toNat, (by decide : (' ' : Char).toNat = 32)] at h
    rcases hn with h1 | h1 <;> omega
  · rw [char_eq_iff_toNat, (by decide : ('\t' : Char).toNat = 9)] at h
    rcases hn with h1 | h1 <;> omega
  · rw [char_eq_iff_toNat, (by decide : ('\n' : Char).toNat = 10)] at h
    rcases hn with h1 | h1 <;> omega
  · rw [char_eq_iff_toNat, (by decide : ('\x0d' : Char).toNat = 13)] at h
    rcases hn with h1 | h1 <;> omega

theorem dumpsVal_head (v : JsonVal) :
    ∃ c t, dumpsVal v = c :: t ∧ isWsC c = false ∧ c ≠ ']' := by
  cases v with
  | null => exact ⟨'n', _, rfl, by decide, by decide⟩
  | bool b =>
      cases b
      · exact ⟨'f', _, rfl, by decide, by decide⟩
      · exact ⟨'t', _, rfl, by decide, by decide⟩
  | num m e =>
      obtain ⟨c, t, h, hc⟩ := decDigits_head m e
      obtain ⟨hws, _, _, _, _, _, _⟩ := numHead_props hc
      refine ⟨c, t, ?_, hws, ?_⟩
      · dsimp only [dumpsVal]
        exact h
      · intro he
        have : c.toNat = (']' : Char).toNat := by rw [he]
        rw [(by decide : (']' : Char).toNat = 93)] at this
        rcases hc with h' | h'
        · rw [char_eq_iff_toNat, (by decide : ('-' : Char).toNat = 45)] at h'
          omega
        · simp only [isDigitC, Bool.and_eq_true, decide_eq_true_eq] at h'
          omega
  | str s => exact ⟨'"', _, rfl, by decide, by decide⟩
  | arr xs =>
      cases xs with
      | nil => exact ⟨'[', _, rfl, by decide, by decide⟩
      | cons x t => exact ⟨'[', _, rfl, by decide, by decide⟩
  | obj kvs =>
      rcases kvs with _ | ⟨⟨k, v⟩, kvs⟩
      · exact ⟨lbrace, _, rfl, by decide, by decide⟩
      · exact ⟨lbrace, _, rfl, by decide, by decide⟩

theorem parseMember_at (k : String) (v : JsonVal) (fuel : Nat) (R : List Char)
    (ih : ∀ (fuel : Nat) (rest : List Char), jsize v ≤ fuel → numBoundary rest →
      parseValue fuel (dumpsVal v ++ rest) = some (v, rest))
    (hsz : jsize v + 1 ≤ fuel) (hR : numBoundary R) :
    parseMember fuel (jstring k ++ (':' :: (' ' :: (dumpsVal v ++ R)))) = some (k, v, R) := by
  obtain ⟨f, rfl⟩ : ∃ f, fuel = f + 1 := ⟨fuel - 1, by omega⟩
  have hshape : jstring k ++ (':' :: (' ' :: (dumpsVal v ++ R)))
      = '"' :: ((k.data.map escJsonChar).flatten
        ++ ('"' :: (':' :: (' ' :: (dumpsVal v ++ R))))) := by
    unfold jstring
    simp
  rw [parseMember.eq_def, hshape]
  dsimp only
  rw [skipWs_cons _ _ (by decide)]
  dsimp only
  rw [if_pos rfl, parseStrBody_jstring k (':' :: (' ' :: (dumpsVal v ++ R)))]
  dsimp only
  rw [skipWs_cons _ _ (by decide)]
  dsimp only
  rw [if_pos rfl, parseValue_space, ih f R (by omega) hR]

theorem parseValue_dumpsVal : ∀ (v : JsonVal) (fuel : Nat) (rest : List Char),
    jsize v ≤ fuel → numBoundary rest →
    parseValue fuel (dumpsVal v ++ rest) = some (v, rest) := by
  apply dumpsVal.induct
    (motive_1 := fun xs => ∀ (fuel : Nat) (rest : List Char) (acc : List JsonVal),
      jsize.jsizeElems xs ≤ fuel → numBoundary rest →
      parseElems fuel (dumpsVal.dumpsElems xs ++ rest) acc = some (.arr (acc ++ xs), rest))
    (motive_2 := fun v => ∀ (fuel : Nat) (rest : List Char),
      jsize v ≤ fuel → numBoundary rest →
      parseValue fuel (dumpsVal v ++ rest) = some (v, rest))
    (motive_3 := fun kvs => ∀ (fuel : Nat) (rest : List Char)
        (acc : List (String × JsonVal)),
      jsize.jsizeMembers kvs ≤ fuel → numBoundary rest →
      parseMembers fuel (dumpsVal.dumpsMembers kvs ++ rest) acc = some (.obj (acc ++ kvs), rest))
  · intro fuel rest hf hb
    simp only [jsize] at hf
    obtain ⟨f, rfl⟩ : ∃ f, fuel = f + 1 := ⟨fuel - 1, by omega⟩
    have hshape : dumpsVal JsonVal.null ++ rest = 'n' :: 'u' :: 'l' :: 'l' :: rest := by
      simp [dumpsVal]
    rw [parseValue.eq_def, hshape]
    dsimp only
    rw [skipWs_cons _ _ (by decide)]
    dsimp only
    rw [if_pos rfl]
    simp [expectChars]
  · intro fuel rest hf hb
    simp only [jsize] at hf
    obtain ⟨f, rfl⟩ : ∃ f, fuel = f + 1 := ⟨fuel - 1, by omega⟩
    have hshape : dumpsVal (JsonVal.bool true) ++ rest = 't' :: 'r' :: 'u' :: 'e' :: rest := by
      simp [dumpsVal]
    rw [parseValue.eq_def, hshape]
    dsimp only
    rw [skipWs_cons _ _ (by decide)]
    dsimp only
    rw [if_neg (by decide), if_pos rfl]
    simp [expectChars]
  · intro fuel rest hf hb
    simp only [jsize] at hf
    obtain ⟨f, rfl⟩ : ∃ f, fuel = f + 1 := ⟨fuel - 1, by omega⟩
    have hshape : dumpsVal (JsonVal.bool false) ++ rest
        = 'f' :: 'a' :: 'l' :: 's' :: 'e' :: rest := by
      simp [dumpsVal]
    rw [parseValue.eq_def, hshape]
    dsimp only
    rw [skipWs_cons _ _ (by decide)]
    dsimp only
    rw [if_neg (by decide), if_neg (by decide), if_pos rfl]
    simp [expectChars]
  · intro m e fuel rest hf hb
    simp only [jsize] at hf
    obtain ⟨f, rfl⟩ : ∃ f, fuel = f + 1 := ⟨fuel - 1, by omega⟩
    obtain ⟨c, t, hdc, hc⟩ := decDigits_head m e
    obtain ⟨hws, hcn, hct, hcf, hcq, hcbk, hclb⟩ := numHead_props hc
    have hshape : dumpsVal (JsonVal.num m e) ++ rest = c :: (t ++ rest) := by
      dsimp only [dumpsVal]
      rw [hdc, List.cons_append]
    rw [parseValue.eq_def, hshape]
    dsimp only
    rw [skipWs_cons _ _ hws]
    dsimp only
    rw [if_neg hcn, if_neg hct, if_neg hcf, if_neg hcq, if_neg hcbk, if_neg hclb]
    rw [← List.cons_append, ← hdc]
    exact parseNum_decDigits m e rest hb
  · intro s fuel rest hf hb
    simp only [jsize] at hf
    obtain ⟨f, rfl⟩ : ∃ f, fuel = f + 1 := ⟨fuel - 1, by omega⟩
    have hshape : dumpsVal (JsonVal.str s) ++ rest
        = '"' :: ((s.data.map escJsonChar).flatten ++ ('"' :: rest)) := by
      dsimp only [dumpsVal]
      unfold jstring
      simp
    rw [parseValue.eq_def, hshape]
    dsimp only
    rw [skipWs_cons _ _ (by decide)]
    dsimp only
    rw [if_neg (by decide), if_neg (by decide), if_neg (by decide), if_pos rfl]
    rw [parseStrBody_jstring s rest]
    rfl
  · intro fuel rest hf hb
    simp only [jsize] at hf
    obtain ⟨f, rfl⟩ : ∃ f, fuel = f + 1 := ⟨fuel - 1, by omega⟩
    have hshape : dumpsVal (JsonVal.arr []) ++ rest = '[' :: (']' :: rest) := by
      simp [dumpsVal]
    rw [parseValue.eq_def, hshape]
    dsimp only
    rw [skipWs_cons _ _ (by decide)]
    dsimp only
    rw [if_neg (by decide), if_neg (by decide), if_neg (by decide), if_neg (by decide),
      if_pos rfl]
    rw [skipWs_cons _ _ (by decide)]
    dsimp only
    rw [if_pos rfl]
  · intro x xs ihx ihxs fuel rest hf hb
    simp only [jsize] at hf
    obtain ⟨f, rfl⟩ : ∃ f, fuel = f + 1 := ⟨fuel - 1, by omega⟩
    have hxp := jsize_pos x
    have hep := jsizeElems_pos xs
    have hshape : dumpsVal (JsonVal.arr (x :: xs)) ++ rest
        = '[' :: (dumpsVal x ++ (dumpsVal.dumpsElems xs ++ rest)) := by
      simp [dumpsVal]
    rw [parseValue.eq_def, hshape]
    dsimp only
    rw [skipWs_cons _ _ (by decide)]
    dsimp only
    rw [if_neg (by decide), if_neg (by decide), if_neg (by decide), if_neg (by decide),
      if_pos rfl]
    obtain ⟨c, t, hx, hws, hne⟩ := dumpsVal_head x
    have hs2 : skipWs (dumpsVal x ++ (dumpsVal.dumpsElems xs ++ rest))
        = c :: (t ++ (dumpsVal.dumpsElems xs ++ rest)) := by
      rw [hx, List.cons_append]
      exact skipWs_cons _ _ hws
    simp only [hs2]
    rw [if_neg hne]
    rw [ihx f (dumpsVal.dumpsElems xs ++ rest) (by omega) (numBoundary_elems xs rest)]
    dsimp only
    rw [ihxs f rest [x] (by omega) hb]
    simp
  · intro fuel rest hf hb
    simp only [jsize] at hf
    obtain ⟨f, rfl⟩ : ∃ f, fuel = f + 1 := ⟨fuel - 1, by omega⟩
    have hshape : dumpsVal (JsonVal.obj []) ++ rest = lbrace :: (rbrace :: rest) := by
      simp [dumpsVal]
    rw [parseValue.eq_def, hshape]
    dsimp only
    rw [skipWs_cons _ _ (by decide)]
    dsimp only
    rw [if_neg (by decide), if_neg (by decide), if_neg (by decide), if_neg (by decide),
      if_neg (by decide), if_pos rfl]
    rw [skipWs_cons _ _ (by decide)]
    dsimp only
    rw [if_pos rfl]
  · intro k v kvs ihv ihkvs fuel rest hf hb
    simp only [jsize] at hf
    obtain ⟨f, rfl⟩ : ∃ f, fuel = f + 1 := ⟨fuel - 1, by omega⟩
    have hvp := jsize_pos v
    have hmp := jsizeMembers_pos kvs
    have hshape : dumpsVal (JsonVal.obj ((k, v) :: kvs)) ++ rest
        = lbrace :: (jstring k ++ (':' :: (' ' :: (dumpsVal v
          ++ (dumpsVal.dumpsMembers kvs ++ rest))))) := by
      simp [dumpsVal, List.append_assoc]
    rw [parseValue.eq_def, hshape]
    dsimp only
    rw [skipWs_cons _ _ (by decide)]
    dsimp only
    rw [if_neg (by decide), if_neg (by decide), if_neg (by decide), if_neg (by decide),
      if_neg (by decide), if_pos rfl]
    have hs2 : skipWs (jstring k ++ (':' :: (' ' :: (dumpsVal v
          ++ (dumpsVal.dumpsMembers kvs ++ rest)))))
        = '"' :: ((k.data.map escJsonChar).flatten ++ ('"' :: (':' :: (' ' :: (dumpsVal v
          ++ (dumpsVal.dumpsMembers kvs ++ rest)))))) := by
      rw [show jstring k ++ (':' :: (' ' :: (dumpsVal v ++ (dumpsVal.dumpsMembers kvs ++ rest))))
          = '"' :: ((k.data.map escJsonChar).flatten ++ ('"' :: (':' :: (' ' :: (dumpsVal v
            ++ (dumpsVal.dumpsMembers kvs ++ rest)))))) by unfold jstring; simp]
      exact skipWs_cons _ _ (by decide)
    simp only [hs2]
    rw [if_neg (by decide)]
    rw [parseMember_at k v f _ ihv (by omega) (numBoundary_members kvs rest)]
    dsimp only
    rw [ihkvs f rest [(k, v)] (by omega) hb]
    simp
  · intro fuel rest acc hf hb
    simp only [jsize.jsizeElems] at hf
    obtain ⟨f, rfl⟩ : ∃ f, fuel = f + 1 := ⟨fuel - 1, by omega⟩
    have hshape : dumpsVal.dumpsElems ([] : List JsonVal) ++ rest = ']' :: rest := by
      simp [dumpsVal.dumpsElems]
    rw [parseElems.eq_def, hshape]
    dsimp only
    rw [skipWs_cons _ _ (by decide)]
    dsimp only
    rw [if_pos rfl]
    simp
  · intro x xs ihx ihxs fuel rest acc hf hb
    simp only [jsize.jsizeElems] at hf
    obtain ⟨f, rfl⟩ : ∃ f, fuel = f + 1 := ⟨fuel - 1, by omega⟩
    have hxp := jsize_pos x
    have hep := jsizeElems_pos xs
    have hshape : dumpsVal.dumpsElems (x :: xs) ++ rest
        = ',' :: (' ' :: (dumpsVal x ++ (dumpsVal.dumpsElems xs ++ rest))) := by
      simp [dumpsVal.dumpsElems, List.append_assoc]
    rw [parseElems.eq_def, hshape]
    dsimp only
    rw [skipWs_cons _ _ (by decide)]
    dsimp only
    rw [if_neg (by decide), if_pos rfl]
    rw [parseValue_space,
      ihx f (dumpsVal.dumpsElems xs ++ rest) (by omega) (numBoundary_elems xs rest)]
    dsimp only
    rw [ihxs f rest (acc ++ [x]) (by omega) hb]
    simp
  · intro fuel rest acc hf hb
    simp only [jsize.jsizeMembers] at hf
    obtain ⟨f, rfl⟩ : ∃ f, fuel = f + 1 := ⟨fuel - 1, by omega⟩
    have hshape : dumpsVal.dumpsMembers ([] : List (String × JsonVal)) ++ rest
        = rbrace :: rest := by
      simp [dumpsVal.dumpsMembers]
    rw [parseMembers.eq_def, hshape]
    dsimp only
    rw [skipWs_cons _ _ (by decide)]
    dsimp only
    rw [if_pos rfl]
    simp
  · intro k v kvs ihv ihkvs fuel rest acc hf hb
    simp only [jsize.jsizeMembers] at hf
    obtain ⟨f, rfl⟩ : ∃ f, fuel = f + 1 := ⟨fuel - 1, by omega⟩
    have hvp := jsize_pos v
    have hmp := jsizeMembers_pos kvs
    have hshape : dumpsVal.dumpsMembers ((k, v) :: kvs) ++ rest
        = ',' :: (' ' :: (jstring k ++ (':' :: (' ' :: (dumpsVal v
          ++ (dumpsVal.dumpsMembers kvs ++ rest)))))) := by
      simp [dumpsVal.dumpsMembers, List.append_assoc]
    rw [parseMembers.eq_def, hshape]
    dsimp only
    rw [skipWs_cons _ _ (by decide)]
    dsimp only
    rw [if_neg (by decide), if_pos rfl]
    rw [parseMember_space,
      parseMember_at k v f _ ihv (by omega) (numBoundary_members kvs rest)]
    dsimp only
    rw [ihkvs f rest (acc ++ [(k, v)]) (by omega) hb]
    simp

theorem jsize_le_dumps : ∀ v : JsonVal, jsize v ≤ (dumpsVal v).length + 1 := by
  apply dumpsVal.induct
    (motive_1 := fun xs => jsize.jsizeElems xs ≤ (dumpsVal.dumpsElems xs).length)
    (motive_2 := fun v => jsize v ≤ (dumpsVal v).length + 1)
    (motive_3 := fun kvs => jsize.jsizeMembers kvs ≤ (dumpsVal.dumpsMembers kvs).length)
  · simp [jsize, dumpsVal]
  · simp [jsize, dumpsVal]
  · simp [jsize, dumpsVal]
  · intro m e
    simp [jsize]
  · intro s
    simp [jsize]
  · simp [jsize, dumpsVal]
  · intro x xs ihx ihxs
    simp only [jsize, dumpsVal, List.length_cons, List.length_append]
    omega
  · simp [jsize, dumpsVal]
  · intro k v kvs ihv ihkvs
    simp only [jsize, dumpsVal, List.length_cons, List.length_append]
    omega
  · simp [jsize.jsizeElems, dumpsVal.dumpsElems]
  · intro x xs ihx ihxs
    simp only [jsize.jsizeElems, dumpsVal.dumpsElems, List.length_cons, List.length_append]
    omega
  · simp [jsize.jsizeMembers, dumpsVal.dumpsMembers]
  · intro k v kvs ihv ihkvs
    simp only [jsize.jsizeMembers, dumpsVal.dumpsMembers, List.length_cons, List.length_append]
    omega

theorem parseJsonChars_dumpsVal (v : JsonVal) : parseJsonChars (dumpsVal v) = some v := by
  unfold parseJsonChars
  have h := parseValue_dumpsVal v ((dumpsVal v).length + 1) [] (jsize_le_dumps v)
    numBoundary_nil
  rw [List.append_nil] at h
  rw [h]
  simp [skipWs]

theorem b64val_b64chr : ∀ k < 64, b64val (b64chr k) = some k := by
  decide

theorem b64chr_ne_pad : ∀ k < 64, b64chr k ≠ '=' := by
  decide

theorem b64dec_b64enc : ∀ bs : List Nat, (∀ b ∈ bs, b < 256) →
    b64dec (b64enc bs) = some bs := by
  intro bs
  induction bs using b64enc.induct with
  | case1 =>
      intro _
      rfl
  | case2 b1 =>
      intro h
      have hb1 : b1 < 256 := h b1 (by simp)
      rw [b64enc, b64dec]
      rw [b64val_b64chr _ (by omega), b64val_b64chr _ (by omega)]
      dsimp only
      rw [if_pos ⟨rfl, rfl, rfl⟩]
      have : b1 / 4 * 4 + b1 % 4 * 16 / 16 = b1 := by omega
      rw [this]
  | case3 b1 b2 =>
      intro h
      have hb1 : b1 < 256 := h b1 (by simp)
      have hb2 : b2 < 256 := h b2 (by simp)
      rw [b64enc, b64dec]
      rw [b64val_b64chr _ (by omega), b64val_b64chr _ (by omega)]
      dsimp only
      rw [if_neg (fun hc => b64chr_ne_pad _ (by omega) hc.1),
        if_pos ⟨rfl, rfl⟩, b64val_b64chr _ (by omega)]
      dsimp only
      have h1 : (b1 / 4) * 4 + (b1 % 4 * 16 + b2 / 16) / 16 = b1 := by omega
      have h2 : (b1 % 4 * 16 + b2 / 16) % 16 * 16 + b2 % 16 * 4 / 4 = b2 := by omega
      rw [h1, h2]
  | case4 b1 b2 b3 rest ih =>
      intro h
      have hb1 : b1 < 256 := h b1 (by simp)
      have hb2 : b2 < 256 := h b2 (by simp)
      have hb3 : b3 < 256 := h b3 (by simp)
      have hrest : ∀ b ∈ rest, b < 256 := fun b hb => h b (by simp [hb])
      rw [b64enc, b64dec]
      rw [b64val_b64chr _ (by omega), b64val_b64chr _ (by omega)]
      dsimp only
      rw [if_neg (fun hc => b64chr_ne_pad _ (by omega) hc.1),
        if_neg (fun hc => b64chr_ne_pad _ (by omega) hc.1),
        b64val_b64chr _ (by omega), b64val_b64chr _ (by omega), ih hrest]
      dsimp only
      have h1 : (b1 / 4) * 4 + (b1 % 4 * 16 + b2 / 16) / 16 = b1 := by omega
      have h2 : (b1 % 4 * 16 + b2 / 16) % 16 * 16 + (b2 % 16 * 4 + b3 / 64) / 4 = b2 := by
        omega
      have h3 : (b2 % 16 * 4 + b3 / 64) % 4 * 64 + b3 % 64 = b3 := by omega
      rw [h1, h2, h3]

theorem utf8EncodeChar_ascii {c : Char} (h : c.toNat < 128) :
    utf8EncodeChar c = [c.toNat] := by
  unfold utf8EncodeChar
  rw [if_pos h]

theorem pyEncodeUtf8_ascii (cs : List Char) (h : ∀ c ∈ cs, c.toNat < 128) :
    pyEncodeUtf8 cs = cs.map Char.toNat := by
  unfold pyEncodeUtf8
  induction cs with
  | nil => rfl
  | cons c t ih =>
      simp only [List.map_cons, List.flatten_cons]
      rw [utf8EncodeChar_ascii (h c (by simp)), ih (fun c hc => h c (by simp [hc]))]
      rfl

theorem utf8DecodeAscii_map (cs : List Char) (h : ∀ c ∈ cs, c.toNat < 128) :
    utf8DecodeAscii (cs.map Char.toNat) = some cs := by
  induction cs with
  | nil => rfl
  | cons c t ih =>
      simp only [List.map_cons]
      rw [utf8DecodeAscii]
      rw [if_pos (h c (by simp)), ih (fun c hc => h c (by simp [hc]))]
      simp [Char.ofNat_toNat]

theorem digit_ascii {c : Char} (h : isDigitC c = true) : c.toNat < 128 := by
  simp only [isDigitC, Bool.and_eq_true, decide_eq_true_eq] at h
  omega

theorem hexCharL_ascii : ∀ k < 16, (hexCharL k).toNat < 128 := by
  decide

theorem hex4_ascii (n : Nat) : ∀ c ∈ hex4 n, c.toNat < 128 := by
  intro c hc
  simp only [hex4, List.mem_cons, List.not_mem_nil, or_false] at hc
  rcases hc with h | h | h | h <;>
    (subst h; exact hexCharL_ascii _ (Nat.mod_lt _ (by omega)))

theorem escJsonChar_ascii (c : Char) : ∀ c' ∈ escJsonChar c, c'.toNat < 128 := by
  intro c' hc'
  unfold escJsonChar at hc'
  split_ifs at hc' with h1 h2 h3 h4 h5 h6 h7
  · simp only [List.mem_cons, List.not_mem_nil, or_false] at hc'
    rcases hc' with h | h <;> (subst h; decide)
  · simp only [List.mem_cons, List.not_mem_nil, or_false] at hc'
    rcases hc' with h | h <;> (subst h; decide)
  · simp only [List.mem_cons, List.not_mem_nil, or_false] at hc'
    rcases hc' with h | h <;> (subst h; decide)
  · simp only [List.mem_cons, List.not_mem_nil, or_false] at hc'
    rcases hc' with h | h <;> (subst h; decide)
  · simp only [List.mem_cons, List.not_mem_nil, or_false] at hc'
    rcases hc' with h | h <;> (subst h; decide)
  · simp only [List.mem_cons, List.not_mem_nil, or_false] at hc'
    rcases hc' with h | h <;> (subst h; decide)
  · simp only [List.mem_cons, List.not_mem_nil, or_false] at hc'
    rcases hc' with h | h <;> (subst h; decide)
  · by_cases h : 32 ≤ c.toNat ∧ c.toNat ≤ 126
    · rw [if_pos h] at hc'
      simp only [List.mem_cons, List.not_mem_nil, or_false] at hc'
      subst hc'
      omega
    · rw [if_neg h] at hc'
      by_cases hs : c.toNat < 65536
      · rw [if_pos hs] at hc'
        simp only [List.mem_cons] at hc'
        rcases hc' with h' | h' | h'
        · subst h'; decide
        · subst h'; decide
        · exact hex4_ascii _ _ h'
      · rw [if_neg hs] at hc'
        simp only [List.mem_append, List.mem_cons] at hc'
        rcases hc' with (h' | h' | h') | (h' | h' | h')
        · subst h'; decide
        · subst h'; decide
        · exact hex4_ascii _ _ h'
        · subst h'; decide
        · subst h'; decide
        · exact hex4_ascii _ _ h'

theorem jstring_ascii (s : String) : ∀ c ∈ jstring s, c.toNat < 128 := by
  intro c hc
  unfold jstring at hc
  simp only [List.mem_cons, List.mem_append, List.mem_flatten, List.mem_map,
    List.not_mem_nil, or_false, or_assoc] at hc
  rcases hc with h | ⟨l, ⟨c0, _, hl⟩, hcl⟩ | h
  · subst h; decide
  · subst hl
    exact escJsonChar_ascii c0 c hcl
  · subst h; decide

theorem decDigits_ascii (m : Int) (e : Nat) : ∀ c ∈ (decDigits m e).data, c.toNat < 128 := by
  intro c hc
  by_cases he : e = 0
  · subst he
    by_cases hm : m < 0
    · have hshape : (decDigits m 0).data = '-' :: natDigits m.natAbs := by
        unfold decDigits
        simp [hm, String.data_append]
      rw [hshape] at hc
      simp only [List.mem_cons] at hc
      rcases hc with h | h
      · subst h; decide
      · exact digit_ascii (natDigits_digits _ c h)
    · have hshape : (decDigits m 0).data = natDigits m.natAbs := by
        unfold decDigits
        simp [hm, String.data_append]
      rw [hshape] at hc
      exact digit_ascii (natDigits_digits _ c hc)
  · by_cases hm : m < 0
    · have hshape : (decDigits m e).data
          = '-' :: ((padDigits m.natAbs (e + 1)).take ((padDigits m.natAbs (e + 1)).length - e)
            ++ ('.' :: (padDigits m.natAbs (e + 1)).drop
              ((padDigits m.natAbs (e + 1)).length - e))) := by
        unfold decDigits
        simp only [he, if_false]
        simp [hm, String.data_append]
      rw [hshape] at hc
      simp only [List.mem_cons, List.mem_append] at hc
      rcases hc with h | (h | (h | h))
      · subst h; decide
      · exact digit_ascii (padDigits_digits _ _ c (List.mem_of_mem_take h))
      · subst h; decide
      · exact digit_ascii (padDigits_digits _ _ c (List.mem_of_mem_drop h))
    · have hshape : (decDigits m e).data
          = (padDigits m.natAbs (e + 1)).take ((padDigits m.natAbs (e + 1)).length - e)
            ++ ('.' :: (padDigits m.natAbs (e + 1)).drop
              ((padDigits m.natAbs (e + 1)).length - e)) := by
        unfold decDigits
        simp only [he, if_false]
        simp [hm, String.data_append]
      rw [hshape] at hc
      simp only [List.mem_cons, List.mem_append] at hc
      rcases hc with h | (h | h)
      · exact digit_ascii (padDigits_digits _ _ c (List.mem_of_mem_take h))
      · subst h; decide
      · exact digit_ascii (padDigits_digits _ _ c (List.mem_of_mem_drop h))

theorem dumpsVal_ascii : ∀ v : JsonVal, ∀ c ∈ dumpsVal v, c.toNat < 128 := by
  apply dumpsVal.induct
    (motive_1 := fun xs => ∀ c ∈ dumpsVal.dumpsElems xs, c.toNat < 128)
    (motive_2 := fun v => ∀ c ∈ dumpsVal v, c.toNat < 128)
    (motive_3 := fun kvs => ∀ c ∈ dumpsVal.dumpsMembers kvs, c.toNat < 128)
  · decide
  · decide
  · decide
  · intro m e
    exact decDigits_ascii m e
  · intro s
    exact jstring_ascii s
  · decide
  · intro x xs ihx ihxs c hc
    simp only [dumpsVal, List.mem_cons, List.mem_append, or_assoc] at hc
    rcases hc with h | h | h
    · subst h; decide
    · exact ihx c h
    · exact ihxs c h
  · decide
  · intro k v kvs ihv ihkvs c hc
    simp only [dumpsVal, List.mem_cons, List.mem_append, or_assoc] at hc
    rcases hc with h | (h | (h | (h | (h | h))))
    · subst h; decide
    · exact jstring_ascii k c h
    · subst h; decide
    · subst h; decide
    · exact ihv c h
    · exact ihkvs c h
  · decide
  · intro x xs ihx ihxs c hc
    simp only [dumpsVal.dumpsElems, List.mem_cons, List.mem_append, or_assoc] at hc
    rcases hc with h | (h | (h | h))
    · subst h; decide
    · subst h; decide
    · exact ihx c h
    · exact ihxs c h
  · decide
  · intro k v kvs ihv ihkvs c hc
    simp only [dumpsVal.dumpsMembers, List.mem_cons, List.mem_append, or_assoc] at hc
    rcases hc with h | (h | (h | (h | (h | (h | h)))))
    · subst h; decide
    · subst h; decide
    · exact jstring_ascii k c h
    · subst h; decide
    · subst h; decide
    · exact ihv c h
    · exact ihkvs c h

theorem decode_encode_variables (vs : JsonVal) :
    decodeVariables (encode_variables vs) = some vs := by
  have hascii := dumpsVal_ascii vs
  have hbytes : ∀ b ∈ pyEncodeUtf8 (dumpsVal vs), b < 256 := by
    rw [pyEncodeUtf8_ascii _ hascii]
    intro b hb
    simp only [List.mem_map] at hb
    obtain ⟨c, hc, rfl⟩ := hb
    have := hascii c hc
    omega
  unfold decodeVariables encode_variables
  rw [show (String.mk (b64enc (pyEncodeUtf8 (dumpsVal vs)))).data
      = b64enc (pyEncodeUtf8 (dumpsVal vs)) from rfl]
  rw [b64dec_b64enc _ hbytes]
  dsimp only [Option.bind]
  rw [pyEncodeUtf8_ascii _ hascii, utf8DecodeAscii_map _ hascii]
  dsimp only [Option.bind]
  exact parseJsonChars_dumpsVal vs

theorem parseJson_dumps (v : JsonVal) : parseJson (dumps v) = some v := by
  unfold parseJson dumps
  rw [show (String.mk (dumpsVal v)).data = dumpsVal v from rfl]
  exact parseJsonChars_dumpsVal v

theorem hexVal_hexCharU : ∀ k < 16, hexVal (hexCharU k) = some k := by
  decide

theorem utf8EncodeChar_lt256 (c : Char) : ∀ b ∈ utf8EncodeChar c, b < 256 := by
  have hv := char_valid_cases c
  have hn : c.toNat < 1114112 := by rcases hv with h | ⟨_, h⟩ <;> omega
  intro b hb
  unfold utf8EncodeChar at hb
  by_cases h1 : c.toNat < 128
  · rw [if_pos h1] at hb
    simp only [List.mem_cons, List.not_mem_nil, or_false] at hb
    omega
  · rw [if_neg h1] at hb
    by_cases h2 : c.toNat < 2048
    · rw [if_pos h2] at hb
      simp only [List.mem_cons, List.not_mem_nil, or_false] at hb
      rcases hb with h | h <;> omega
    · rw [if_neg h2] at hb
      by_cases h3 : c.toNat < 65536
      · rw [if_pos h3] at hb
        simp only [List.mem_cons, List.not_mem_nil, or_false] at hb
        rcases hb with h | h | h <;> omega
      · rw [if_neg h3] at hb
        simp only [List.mem_cons, List.not_mem_nil, or_false] at hb
        rcases hb with h | h | h | h <;> omega

theorem unquote_quote (cs : List Char) (h : ∀ c ∈ cs, c.toNat < 128) :
    unquotePlus (quotePlus cs) = some cs := by
  induction cs with
  | nil => rfl
  | cons c t ih =>
      have hc : c.toNat < 128 := h c (by simp)
      have ht := ih (fun c hc => h c (by simp [hc]))
      unfold quotePlus at ht ⊢
      simp only [List.map_cons, List.flatten_cons]
      by_cases hs : isUrlSafe c
      · have hplus : ¬c = '+' := fun he => by
          rw [he] at hs
          exact absurd hs (by decide)
        have hpct : ¬c = '%' := fun he => by
          rw [he] at hs
          exact absurd hs (by decide)
        have hqc : quotePlusChar c = [c] := by
          unfold quotePlusChar
          rw [if_pos hs]
        rw [hqc]
        simp only [List.cons_append, List.nil_append]
        rw [unquotePlus.eq_def]
        dsimp only
        rw [if_neg hplus, if_neg hpct, ht]
        rfl
      · by_cases hsp : c = ' '
        · subst hsp
          rw [show quotePlusChar ' ' = ['+'] from by decide]
          simp only [List.cons_append, List.nil_append]
          rw [unquotePlus.eq_def]
          dsimp only
          rw [if_pos rfl, ht]
          rfl
        · have hqc : quotePlusChar c
              = ['%', hexCharU (c.toNat / 16), hexCharU (c.toNat % 16)] := by
            unfold quotePlusChar
            rw [if_neg hs, if_neg hsp, utf8EncodeChar_ascii hc]
            simp
          rw [hqc]
          simp only [List.cons_append, List.nil_append]
          rw [unquotePlus.eq_def]
          dsimp only
          rw [if_neg (by decide), if_pos rfl]
          rw [hexVal_hexCharU _ (by omega), hexVal_hexCharU _ (by omega)]
          dsimp only
          rw [if_pos (by omega)]
          have hrec : c.toNat / 16 * 16 + c.toNat % 16 = c.toNat := by omega
          rw [hrec, ht]
          simp [Char.ofNat_toNat]

theorem hexCharU_ne : ∀ k < 16, hexCharU k ≠ '&' ∧ hexCharU k ≠ '=' := by
  decide

theorem quotePlus_no (cs : List Char) : ∀ c ∈ quotePlus cs, c ≠ '&' ∧ c ≠ '=' := by
  intro c hc
  unfold quotePlus at hc
  simp only [List.mem_flatten, List.mem_map] at hc
  obtain ⟨l, ⟨c0, _, rfl⟩, hcl⟩ := hc
  unfold quotePlusChar at hcl
  by_cases hs : isUrlSafe c0
  · rw [if_pos hs] at hcl
    simp only [List.mem_cons, List.not_mem_nil, or_false] at hcl
    subst hcl
    constructor
    · intro he
      rw [he] at hs
      exact absurd hs (by decide)
    · intro he
      rw [he] at hs
      exact absurd hs (by decide)
  · rw [if_neg hs] at hcl
    by_cases hsp : c0 = ' '
    · rw [if_pos hsp] at hcl
      simp only [List.mem_cons, List.not_mem_nil, or_false] at hcl
      subst hcl
      exact ⟨by decide, by decide⟩
    · rw [if_neg hsp] at hcl
      simp only [List.mem_flatten, List.mem_map] at hcl
      obtain ⟨l2, ⟨b, hb, rfl⟩, hcl2⟩ := hcl
      have hb256 : b < 256 := utf8EncodeChar_lt256 c0 b hb
      simp only [List.mem_cons, List.not_mem_nil, or_false] at hcl2
      rcases hcl2 with h | h | h
      · subst h
        exact ⟨by decide, by decide⟩
      · subst h
        exact hexCharU_ne _ (by omega)
      · subst h
        exact hexCharU_ne _ (by omega)

theorem splitOnChar_ne_nil (sep : Char) : ∀ cs, splitOnChar sep cs ≠ [] := by
  intro cs
  cases cs with
  | nil => simp [splitOnChar]
  | cons c t =>
      rw [splitOnChar]
      cases h : splitOnChar sep t with
      | nil => simp
      | cons g gs =>
          dsimp only
          by_cases hc : c = sep <;> simp [hc]

theorem splitOnChar_no (sep : Char) (xs : List Char) (h : ∀ c ∈ xs, c ≠ sep) :
    splitOnChar sep xs = [xs] := by
  induction xs with
  | nil => rfl
  | cons c t ih =>
      rw [splitOnChar, ih (fun c hc => h c (by simp [hc]))]
      dsimp only
      rw [if_neg (h c (by simp))]

theorem splitOnChar_append (sep : Char) (xs ys : List Char) (h : ∀ c ∈ xs, c ≠ sep) :
    splitOnChar sep (xs ++ sep :: ys) = xs :: splitOnChar sep ys := by
  induction xs with
  | nil =>
      simp only [List.nil_append]
      rw [splitOnChar]
      obtain ⟨g, gs, hg⟩ : ∃ g gs, splitOnChar sep ys = g :: gs := by
        cases hgs : splitOnChar sep ys with
        | nil => exact absurd hgs (splitOnChar_ne_nil sep ys)
        | cons g gs => exact ⟨g, gs, rfl⟩
      rw [hg]
      dsimp only
      rw [if_pos rfl, ← hg]
  | cons c t ih =>
      simp only [List.cons_append]
      rw [splitOnChar, ih (fun c hc => h c (by simp [hc]))]
      dsimp only
      rw [if_neg (h c (by simp))]

theorem splitKV_eq (k v : List Char) (h : ∀ c ∈ k, c ≠ '=') :
    splitKV (k ++ '=' :: v) = (k, v) := by
  unfold splitKV
  obtain ⟨ht, hd⟩ := takeWhile_append_all (p := fun c => decide (c ≠ '=')) k ('=' :: v)
    (by intro c hc; simpa using h c hc)
    (by intro c hc; simp only [List.head?_cons, Option.some.injEq] at hc; subst hc; simp)
  rw [ht, hd]
  simp

theorem paramLookup_skip (name : String) (pair : List Char) (rest : List (List Char))
    (h : unquotePlus (splitKV pair).1 ≠ some name.data) :
    paramLookup name (pair :: rest) = paramLookup name rest := by
  rw [paramLookup]
  dsimp only
  cases hk : unquotePlus (splitKV pair).1 with
  | none => rfl
  | some kd =>
      dsimp only
      rw [if_neg]
      intro he
      rw [hk] at h
      exact h (by rw [he])

theorem paramLookup_hit (name : String) (pair : List Char) (rest : List (List Char))
    (h : unquotePlus (splitKV pair).1 = some name.data) :
    paramLookup name (pair :: rest) = (unquotePlus (splitKV pair).2).map String.mk := by
  rw [paramLookup]
  dsimp only
  rw [h]
  dsimp only
  rw [if_pos rfl]

theorem getQueryParam_generic (params : List (String × String)) (name : String) :
    getQueryParam (VTEX_BASE_URL ++ "?" ++ String.mk (urlencodeParams params)) name
      = paramLookup name (splitOnChar '&' (urlencodeParams params)) := by
  unfold getQueryParam
  have hdata : (VTEX_BASE_URL ++ "?" ++ String.mk (urlencodeParams params)).data
      = VTEX_BASE_URL.data ++ '?' :: urlencodeParams params := by
    simp [String.data_append]
  rw [hdata]
  obtain ⟨-, hd⟩ := takeWhile_append_all (p := fun c => decide (c ≠ '?'))
    VTEX_BASE_URL.data ('?' :: urlencodeParams params)
    (by decide)
    (by intro c hc; simp only [List.head?_cons, Option.some.injEq] at hc; subst hc; simp)
  rw [hd]
  simp

theorem pairNoAmp (k v : String) :
    ∀ c ∈ quotePlus k.data ++ '=' :: quotePlus v.data, c ≠ '&' := by
  intro c hc
  simp only [List.mem_append, List.mem_cons, or_assoc] at hc
  rcases hc with h | h | h
  · exact (quotePlus_no _ c h).1
  · subst h; decide
  · exact (quotePlus_no _ c h).1

theorem splitOnChar_urlencode (op e : String) :
    splitOnChar '&' (urlencodeParams [("workspace", "master"), ("maxAge", "medium"),
      ("domain", "store"), ("locale", "es-MX"), ("operationName", op), ("extensions", e)])
    = [quotePlus "workspace".data ++ '=' :: quotePlus "master".data,
       quotePlus "maxAge".data ++ '=' :: quotePlus "medium".data,
       quotePlus "domain".data ++ '=' :: quotePlus "store".data,
       quotePlus "locale".data ++ '=' :: quotePlus "es-MX".data,
       quotePlus "operationName".data ++ '=' :: quotePlus op.data,
       quotePlus "extensions".data ++ '=' :: quotePlus e.data] := by
  have hqs : urlencodeParams [("workspace", "master"), ("maxAge", "medium"),
      ("domain", "store"), ("locale", "es-MX"), ("operationName", op), ("extensions", e)]
      = (quotePlus "workspace".data ++ '=' :: quotePlus "master".data) ++ '&' ::
        ((quotePlus "maxAge".data ++ '=' :: quotePlus "medium".data) ++ '&' ::
        ((quotePlus "domain".data ++ '=' :: quotePlus "store".data) ++ '&' ::
        ((quotePlus "locale".data ++ '=' :: quotePlus "es-MX".data) ++ '&' ::
        ((quotePlus "operationName".data ++ '=' :: quotePlus op.data) ++ '&' ::
        (quotePlus "extensions".data ++ '=' :: quotePlus e.data))))) := by
    unfold urlencodeParams
    simp [List.intercalate, List.intersperse]
  rw [hqs]
  rw [splitOnChar_append _ _ _ (pairNoAmp _ _), splitOnChar_append _ _ _ (pairNoAmp _ _),
    splitOnChar_append _ _ _ (pairNoAmp _ _), splitOnChar_append _ _ _ (pairNoAmp _ _),
    splitOnChar_append _ _ _ (pairNoAmp _ _), splitOnChar_no _ _ (pairNoAmp _ _)]

theorem getQueryParam_build_url (op hash : String) (vs : JsonVal) :
    getQueryParam (build_url op hash vs) "extensions"
      = some (dumps (extensionsObj hash vs)) := by
  have hascii : ∀ c ∈ (dumps (extensionsObj hash vs)).data, c.toNat < 128 :=
    dumpsVal_ascii (extensionsObj hash vs)
  show getQueryParam (VTEX_BASE_URL ++ "?" ++ String.mk (urlencodeParams
    [("workspace", "master"), ("maxAge", "medium"), ("domain", "store"),
     ("locale", "es-MX"), ("operationName", op),
     ("extensions", dumps (extensionsObj hash vs))])) "extensions" = _
  rw [getQueryParam_generic, splitOnChar_urlencode op (dumps (extensionsObj hash vs))]
  rw [paramLookup_skip _ _ _ (by rw [splitKV_eq _ _ (by decide)]; dsimp only; decide),
    paramLookup_skip _ _ _ (by rw [splitKV_eq _ _ (by decide)]; dsimp only; decide),
    paramLookup_skip _ _ _ (by rw [splitKV_eq _ _ (by decide)]; dsimp only; decide),
    paramLookup_skip _ _ _ (by rw [splitKV_eq _ _ (by decide)]; dsimp only; decide),
    paramLookup_skip _ _ _ (by rw [splitKV_eq _ _ (by decide)]; dsimp only; decide),
    paramLookup_hit _ _ _ (by rw [splitKV_eq _ _ (by decide)]; dsimp only; decide)]
  rw [splitKV_eq _ _ (by decide)]
  dsimp only
  rw [unquote_quote _ hascii]
  simp [mkData]

theorem build_url_roundtrip (op hash : String) (vs : JsonVal) :
    urlDecodedVariables (build_url op hash vs) = some vs ∧
    urlPersistedHash (build_url op hash vs) = some (.str hash) := by
  have hq := getQueryParam_build_url op hash vs
  constructor
  · unfold urlDecodedVariables
    rw [hq]
    dsimp only [Option.bind]
    rw [parseJson_dumps (extensionsObj hash vs)]
    dsimp only [Option.bind]
    rw [show jGet (extensionsObj hash vs) "variables"
        = some (.str (encode_variables vs)) from rfl]
    exact decode_encode_variables vs
  · unfold urlPersistedHash
    rw [hq]
    dsimp only [Option.bind]
    rw [parseJson_dumps (extensionsObj hash vs)]
    dsimp only [Option.bind]
    rfl

/-- C4: for every search term and each of the two fixed operations
(`autocompleteSearchSuggestions` and `productSuggestions`, built by
`execute_search` with `varsAutocomplete` / `varsProducts`), the URL
produced by `build_url` carries an `extensions` parameter whose embedded
`variables` string base64-decodes to valid JSON equal to the input
variables mapping (decode ∘ encode = id), and whose persistedQuery
descriptor carries the fixed sha256 hash constant of that operation. -/
theorem claim_C4 (term : String) :
    (urlDecodedVariables (build_url "autocompleteSearchSuggestions" AUTOCOMPLETE_HASH
        (varsAutocomplete term)) = some (varsAutocomplete term)
      ∧ urlPersistedHash (build_url "autocompleteSearchSuggestions" AUTOCOMPLETE_HASH
        (varsAutocomplete term)) = some (.str AUTOCOMPLETE_HASH))
    ∧ (urlDecodedVariables (build_url "productSuggestions" PRODUCT_SUGGESTIONS_HASH
        (varsProducts term)) = some (varsProducts term)
      ∧ urlPersistedHash (build_url "productSuggestions" PRODUCT_SUGGESTIONS_HASH
        (varsProducts term)) = some (.str PRODUCT_SUGGESTIONS_HASH)) :=
  ⟨build_url_roundtrip _ _ _, build_url_roundtrip _ _ _⟩
